import Mathlib

/-!
Shallow embedding of the pick/waveform reconciliation clients
(streaming-pick-client, polling-pick-client, and the messaging+waveforms
variant).  Timestamps are modelled as integers, records as immutable
timestamped spans, and Python dicts as insertion-ordered association
lists (`dlookup` / `dset` / `derase`), so that assignment to an existing
key replaces the value in place while a new key is appended at the end,
exactly as CPython dicts behave.  Python exceptions (KeyError,
IndexError, ValueError, the TypeError from `None - TimeSpan`) are
modelled with `Except PyErr`.
-/

/-- Exceptions the Python code can raise on the modelled paths. -/
inductive PyErr where
  | keyError
  | indexError
  | valueError
  | typeError
deriving DecidableEq, Repr

instance {ε α : Type} [DecidableEq ε] [DecidableEq α] : DecidableEq (Except ε α) :=
  fun x y =>
    match x, y with
    | Except.ok a, Except.ok b =>
        if h : a = b then isTrue (by rw [h])
        else isFalse (fun he => h (Except.ok.inj he))
    | Except.error e, Except.error f =>
        if h : e = f then isTrue (by rw [h])
        else isFalse (fun he => h (Except.error.inj he))
    | Except.ok _, Except.error _ => isFalse (fun he => Except.noConfusion he)
    | Except.error _, Except.ok _ => isFalse (fun he => Except.noConfusion he)

/-- An nslc stream key: (network, station, location, band+instrument code),
without the orientation component letter. -/
structure StreamKey where
  net : String
  sta : String
  loc : String
  cha : String
deriving DecidableEq, Repr

/-- Location-code normalisation used throughout the clients:
an empty location code becomes the placeholder. -/
def locPlaceholder : String := "--"

def normLoc (l : String) : String := if l = "" then locPlaceholder else l

/-- A miniSEED record, with the orientation letter already split off the
channel code (the clients compute it as the last character of the raw
channel code and keep the rest as the stream key's channel field). -/
structure Record where
  net : String
  sta : String
  loc : String
  chaBase : String
  comp : Char
  startTime : Int
  endTime : Int
deriving DecidableEq, Repr

/-- The stream key a record is filed under (location code normalised). -/
def Record.key (r : Record) : StreamKey :=
  { net := r.net, sta := r.sta, loc := normLoc r.loc, cha := r.chaBase }

/-- First two characters of a channel code, as the pick handlers compute
with a slice of the pick's waveform identity. -/
def take2 (s : String) : String := String.mk (s.data.take 2)

/-- A pick event: public identity, waveform identity and the pick time. -/
structure Pick where
  publicID : String
  net : String
  sta : String
  loc : String
  cha : String
  time : Int
deriving DecidableEq, Repr

/-- The stream key a pick targets: location normalised, channel code cut
down to the two-character band+instrument prefix of the waveform id. -/
def Pick.key (p : Pick) : StreamKey :=
  { net := p.net, sta := p.sta, loc := normLoc p.loc, cha := take2 p.cha }

/-- Lookup in an insertion-ordered association list (Python `d[k]` /
`k in d`). -/
def dlookup {K V : Type} [DecidableEq K] : List (K × V) → K → Option V
  | [], _ => none
  | (k', v) :: rest, k => if k' = k then some v else dlookup rest k

/-- Assignment `d[k] = v` on an insertion-ordered association list: an
existing key keeps its position, a new key is appended at the end. -/
def dset {K V : Type} [DecidableEq K] : List (K × V) → K → V → List (K × V)
  | [], k, v => [(k, v)]
  | (k', v') :: rest, k, v =>
      if k' = k then (k, v) :: rest else (k', v') :: dset rest k v

/-- Deletion `del d[k]` on an association list.  Python raises KeyError
when the key is absent; this model drops nothing in that case, which at
the modelled call sites only matters in states already corrupted by the
duplicate-pick defect (where the Python client would crash instead). -/
def derase {K V : Type} [DecidableEq K] (d : List (K × V)) (k : K) : List (K × V) :=
  d.filter (fun p => decide (p.1 ≠ k))

/-- A pending acquisition request, as built by `processPick`.  `hasData`
models whether the Python object already has a `data` attribute. -/
structure RequestItem where
  oid : Nat
  pickID : String
  nslc : StreamKey
  components : List Char
  start_time : Int
  end_time : Int
  expires : Int
  finished : Bool
  hasData : Bool
  data : List (Char × List Record)
deriving DecidableEq, Repr

/-- Shared mutable state of the streaming applications: the per-stream
waveform buffers, the per-stream high-water marks, the request index by
pick id and by stream key, and a counter supplying fresh object
identities for newly created request items (Python object identity). -/
structure AppState where
  buffer : List (StreamKey × List (Char × List Record))
  end_time : List (StreamKey × List (Char × Int))
  request : List (String × RequestItem)
  request_by_nslc : List (StreamKey × List RequestItem)
  nextOid : Nat
deriving DecidableEq, Repr

/-- Number of pending requests under the by-pick mapping (`count_1` in
the processData bookkeeping assert). -/
def countByPick (st : AppState) : Nat := st.request.length

/-- Number of pending requests summed across the by-key mapping
(`count_2` in the processData bookkeeping assert). -/
def countByNslc (st : AppState) : Nat :=
  (st.request_by_nslc.map (fun p => p.2.length)).sum

/-- All request items across the by-key mapping, in index order. -/
def itemsOf (rbn : List (StreamKey × List RequestItem)) : List RequestItem :=
  (rbn.map Prod.snd).flatten

/-- Buffer/high-water update of `handleRecord`: append the record to its
(stream key, component) sequence and raise that component's high-water
mark to the record's end time if it is larger. -/
def StreamBufferApp.storeRecord (st : AppState) (r : Record) : AppState :=
  let k := r.key
  let compBuf := (dlookup st.buffer k).getD []
  let lst := (dlookup compBuf r.comp).getD []
  let buffer2 := dset st.buffer k (dset compBuf r.comp (lst ++ [r]))
  let et := (dlookup st.end_time k).getD []
  let t2 := match dlookup et r.comp with
    | none => r.endTime
    | some t => if t < r.endTime then r.endTime else t
  { st with buffer := buffer2, end_time := dset st.end_time k (dset et r.comp t2) }

/-- Completion test of the streaming matching pass: `finished` stays true
unless some component present in the stream's high-water map is still
below the request's end time.  Note this ranges over the components the
buffer has observed, not over the request's own component set. -/
def StreamBufferApp.finishedTest (et : List (Char × Int)) (reqEnd : Int) : Bool :=
  et.all (fun p => decide (reqEnd ≤ p.2))

/-- The record extraction of a satisfied request: per buffered component,
every record whose end time is at least the window start and whose start
time is at most the window end. -/
def StreamBufferApp.extractWindow (compBuf : List (Char × List Record)) (t1 t2 : Int) :
    List (Char × List Record) :=
  compBuf.map (fun p =>
    (p.1, p.2.filter (fun r => decide (t1 ≤ r.endTime) && decide (r.startTime ≤ t2))))

/-- Python `list.remove`: drop the first element with the given object
identity (request items are compared by identity).  Python raises
ValueError when no element matches; the modelled call sites always
remove an element that is present. -/
def eraseFirstOid : List RequestItem → Nat → List RequestItem
  | [], _ => []
  | x :: rest, o => if x.oid = o then rest else x :: eraseFirstOid rest o

theorem eraseFirstOid_length_le (l : List RequestItem) (o : Nat) :
    (eraseFirstOid l o).length ≤ l.length := by
  induction l with
  | nil => simp [eraseFirstOid]
  | cons x rest ih =>
      by_cases h : x.oid = o
      · simp [eraseFirstOid, h]
      · simp only [eraseFirstOid, h, if_false, List.length_cons]
        omega

/-- Result of one matching pass of `handleRecord`: the surviving list for
the triggering key, the by-key mapping (its entry for the triggering key
still stale, as in the Python aliasing), the by-pick mapping, and the
completed items handed to `processData`. -/
structure MatchRes where
  lst : List RequestItem
  request_by_nslc : List (StreamKey × List RequestItem)
  request : List (String × RequestItem)
  exported : List RequestItem
deriving DecidableEq, Repr

/-- The `for request_item in self.request_by_nslc[nslc]` loop of
`handleRecord`, modelled at Python's fidelity: iteration is by index
over the live list, and removing the current element shifts the tail
left under the advancing index.  A finished item gets the extracted
window attached and is removed from the list under its own stream key
and from the by-pick mapping.  `gas` is a structural termination fuel;
called with the initial list length it can never run out before `i`
reaches the end of the (only ever shrinking) list, so the early return
at `gas = 0` coincides with the loop's natural exit. -/
def StreamBufferApp.matchLoop (k : StreamKey) (et : List (Char × Int))
    (compBuf : List (Char × List Record)) : Nat → Nat → List RequestItem →
    List (StreamKey × List RequestItem) → List (String × RequestItem) →
    List RequestItem → MatchRes
  | 0, _, lst, rbn, request, exported =>
      { lst := lst, request_by_nslc := rbn, request := request, exported := exported }
  | gas + 1, i, lst, rbn, request, exported =>
    if h : i < lst.length then
      if StreamBufferApp.finishedTest et (lst[i]).end_time then
        if (lst[i]).nslc = k then
          StreamBufferApp.matchLoop k et compBuf gas (i + 1)
            (eraseFirstOid lst (lst[i]).oid) rbn
            (derase request (lst[i]).pickID)
            (exported ++ [{ lst[i] with
              finished := true
              hasData := true
              data := StreamBufferApp.extractWindow compBuf
                (lst[i]).start_time (lst[i]).end_time }])
        else
          StreamBufferApp.matchLoop k et compBuf gas (i + 1) lst
            (match dlookup rbn (lst[i]).nslc with
             | some l2 => dset rbn (lst[i]).nslc (eraseFirstOid l2 (lst[i]).oid)
             | none => rbn)
            (derase request (lst[i]).pickID)
            (exported ++ [{ lst[i] with
              finished := true
              hasData := true
              data := StreamBufferApp.extractWindow compBuf
                (lst[i]).start_time (lst[i]).end_time }])
      else
        StreamBufferApp.matchLoop k et compBuf gas (i + 1) lst rbn request exported
    else
      { lst := lst, request_by_nslc := rbn, request := request, exported := exported }

/-- The record handler of the streaming clients: store the record, and if
requests are pending for its stream key, run the matching pass over them
(the periodic buffer trim is driven by wall-clock time and modelled
separately by `cleanup_stream`). -/
def StreamBufferApp.handleRecord (st : AppState) (r : Record) :
    AppState × List RequestItem :=
  let st2 := StreamBufferApp.storeRecord st r
  let k := r.key
  match dlookup st2.request_by_nslc k with
  | none => (st2, [])
  | some lst =>
      let et := (dlookup st2.end_time k).getD []
      let compBuf := (dlookup st2.buffer k).getD []
      let res := StreamBufferApp.matchLoop k et compBuf lst.length 0 lst
        st2.request_by_nslc st2.request []
      ({ st2 with
          request := res.request
          request_by_nslc := dset res.request_by_nslc k res.lst },
       res.exported)

/-- The pick handler of the streaming client: an unknown stream key is
skipped, otherwise a fresh request item is stored under its pick id and
appended to the by-key list.  There is no duplicate-pick check: an
existing entry for the same pick id is overwritten and a second list
entry appended. -/
def StreamBufferApp.processPick (st : AppState) (components : List (StreamKey × List Char))
    (now before_p after_p expire_after : Int) (pick : Pick) : AppState :=
  let nslc := pick.key
  match dlookup components nslc with
  | none => st
  | some comps =>
      let item : RequestItem := {
        oid := st.nextOid
        pickID := pick.publicID
        nslc := nslc
        components := comps
        start_time := pick.time - before_p
        end_time := pick.time + after_p
        expires := now + expire_after
        finished := false
        hasData := false
        data := [] }
      { st with
        request := dset st.request pick.publicID item
        request_by_nslc := dset st.request_by_nslc nslc
          ((dlookup st.request_by_nslc nslc).getD [] ++ [item])
        nextOid := st.nextOid + 1 }

/-- Completion check of the polling client's `processPendingPicks`: a
request counts as finished when it already was, or when its stream key
has received records and every one of the request's own components has a
high-water mark at least the request's end time (a component with no
record received, or a stream key with no record at all, blocks it). -/
def PollingApp.finishedCheck (item : RequestItem)
    (end_time : List (StreamKey × List (Char × Int))) : Bool :=
  match dlookup end_time item.nslc with
  | none => item.finished
  | some m =>
      item.finished ||
      item.components.all (fun comp =>
        match dlookup m comp with
        | none => false
        | some t => decide (item.end_time ≤ t))

/-- First phase of the polling sweep: collect the finished requests, then
delete each from the by-pick mapping. -/
def PollingApp.sweepFinished (request : List (String × RequestItem))
    (end_time : List (StreamKey × List (Char × Int))) : List (String × RequestItem) :=
  let fin := (request.filter (fun p => PollingApp.finishedCheck p.2 end_time)).map Prod.fst
  fin.foldl (fun rq pid => derase rq pid) request

/-- Second phase of the polling sweep: every request past its expiry
deadline is logged per component and deleted.  The per-component logging
reads `end_time[request_item.nslc]` without first checking that the key
is present, so a request whose stream key received no record during the
sweep raises a KeyError (unless its component list is empty, in which
case the loop body never runs). -/
def PollingApp.sweepExpired (request : List (String × RequestItem))
    (end_time : List (StreamKey × List (Char × Int))) (now : Int) :
    Except PyErr (List (String × RequestItem)) :=
  let expired := request.filter (fun p => decide (p.2.expires < now))
  expired.foldlM (fun rq p =>
    match p.2.components with
    | [] => Except.ok (derase rq p.2.pickID)
    | _ :: _ =>
        match dlookup end_time p.2.nslc with
        | none => Except.error PyErr.keyError
        | some _ => Except.ok (derase rq p.2.pickID)) request

/-- The per-sweep request bookkeeping of the polling client's
`processPendingPicks`, after the bulk record retrieval has produced the
sweep's high-water map: finished requests are retired, then expired ones
are dropped. -/
def PollingApp.processPendingPicks (request : List (String × RequestItem))
    (end_time : List (StreamKey × List (Char × Int))) (now : Int) :
    Except PyErr (List (String × RequestItem)) :=
  PollingApp.sweepExpired (PollingApp.sweepFinished request end_time) end_time now

/-- The polling client's pick handler: same request construction as the
streaming one, but only the by-pick mapping exists.  No duplicate-pick
check: an existing entry under the same pick id is overwritten. -/
def PollingApp.processPick (request : List (String × RequestItem))
    (components : List (StreamKey × List Char))
    (now before_p after_p expire_after : Int) (pick : Pick) :
    List (String × RequestItem) :=
  let nslc := pick.key
  match dlookup components nslc with
  | none => request
  | some comps =>
      let item : RequestItem := {
        oid := 0
        pickID := pick.publicID
        nslc := nslc
        components := comps
        start_time := pick.time - before_p
        end_time := pick.time + after_p
        expires := now + expire_after
        finished := false
        hasData := false
        data := [] }
      dset request pick.publicID item

/-- The `data` attribute setup at the start of `fetchArchiveData`: create
the attribute if missing, then give every required component an empty
record list unless the component already holds one. -/
def PickWaveformDumperApp.initData (it : RequestItem) : RequestItem :=
  let d0 := if it.hasData then it.data else []
  let d1 := it.components.foldl (fun d c =>
    match dlookup d c with
    | some _ => d
    | none => dset d c []) d0
  { it with hasData := true, data := d1 }

/-- The `request_items_by_nslc` dict comprehension of `fetchArchiveData`:
of several batch requests sharing a stream key, the last one wins.
Items are referenced through their object identity. -/
def PickWaveformDumperApp.byNslcMap (items : List RequestItem) : List (StreamKey × Nat) :=
  items.foldl (fun m it => dset m it.nslc it.oid) []

/-- Append an archive record to the component list of one request's data;
a component key that was never initialised raises a KeyError. -/
def PickWaveformDumperApp.appendRec (it : RequestItem) (rec : Record) :
    Except PyErr RequestItem :=
  match dlookup it.data rec.comp with
  | none => Except.error PyErr.keyError
  | some l => Except.ok { it with data := dset it.data rec.comp (l ++ [rec]) }

/-- Route one retrieved archive record to the request the by-key map
points at (a stream key outside the batch raises a KeyError). -/
def PickWaveformDumperApp.routeRec (m : List (StreamKey × Nat)) (items : List RequestItem)
    (rec : Record) : Except PyErr (List RequestItem) :=
  match dlookup m rec.key with
  | none => Except.error PyErr.keyError
  | some o => items.mapM (fun it =>
      if it.oid = o then PickWaveformDumperApp.appendRec it rec else Except.ok it)

/-- The archive fallback `fetchArchiveData` over a batch of requests:
build the by-key map, initialise every request's per-component data
lists, append each record the archive returns to the request its stream
key routes to, and finally mark every request of the batch finished,
unconditionally.  `archive` is the record sequence the external archive
source returns for the combined query. -/
def PickWaveformDumperApp.fetchArchiveData (req : List RequestItem) (archive : List Record) :
    Except PyErr (List RequestItem) :=
  let m := PickWaveformDumperApp.byNslcMap req
  let items := req.map PickWaveformDumperApp.initData
  match archive.foldlM (fun its rec => PickWaveformDumperApp.routeRec m its rec) items with
  | Except.error e => Except.error e
  | Except.ok out => Except.ok (out.map (fun it => { it with finished := true }))

/-- The pick handler of the messaging+waveforms client: the request is
built and inserted into both index mappings, and then, when its stream
key has no high-water marks at all, or when the requested end time is
more than half the buffer length behind the key's minimum high-water
mark, the archive fallback is invoked on it at once.  The in-place
mutation of the already registered item by `fetchArchiveData` is
modelled by registering the fetched item.  Half the buffer length is
taken with integer division (times are integers in this model).  The
stray second `else:` at the end of the Python function is a leftover
with no body (a syntax slip) and is not modelled. -/
def PickWaveformDumperApp.processPick (st : AppState)
    (components : List (StreamKey × List Char))
    (now before_p after_p expire_after buffer_length : Int)
    (archive : List Record) (pick : Pick) : Except PyErr AppState :=
  let nslc := pick.key
  match dlookup components nslc with
  | none => Except.ok st
  | some comps =>
      let item : RequestItem := {
        oid := st.nextOid
        pickID := pick.publicID
        nslc := nslc
        components := comps
        start_time := pick.time - before_p
        end_time := pick.time + after_p
        expires := now + expire_after
        finished := false
        hasData := false
        data := [] }
      let doFetch : Except PyErr Bool :=
        match dlookup st.end_time nslc with
        | none => Except.ok true
        | some m =>
            match m.map Prod.snd with
            | [] => Except.error PyErr.valueError
            | t :: ts =>
                Except.ok (decide (item.end_time < List.foldl min t ts - buffer_length / 2))
      match doFetch with
      | Except.error e => Except.error e
      | Except.ok b =>
          let fetched : Except PyErr RequestItem :=
            if b then
              match PickWaveformDumperApp.fetchArchiveData [item] archive with
              | Except.error e => Except.error e
              | Except.ok out => Except.ok (out.headD item)
            else Except.ok item
          match fetched with
          | Except.error e => Except.error e
          | Except.ok item2 =>
              Except.ok { st with
                request := dset st.request pick.publicID item2
                request_by_nslc := dset st.request_by_nslc nslc
                  ((dlookup st.request_by_nslc nslc).getD [] ++ [item2])
                nextOid := st.nextOid + 1 }

/-- The minimum over the components of the last buffered record's end
time, computed exactly as the `cleanup_stream` loop does: an empty
component list raises an IndexError at the `[-1]` access. -/
def BufferingStreamApplication.minLastEnd :
    List (Char × List Record) → Option Int → Except PyErr (Option Int)
  | [], acc => Except.ok acc
  | (_, l) :: rest, acc =>
      match l.getLast? with
      | none => Except.error PyErr.indexError
      | some r =>
          let acc2 := match acc with
            | none => some r.endTime
            | some cur => if r.endTime < cur then some r.endTime else some cur
          BufferingStreamApplication.minLastEnd rest acc2

/-- The buffer trim `cleanup_stream` for one stream key: compute the
minimum over components of the last record's end time, subtract the
buffer length, and keep only the records whose end time is strictly
beyond that cutoff.  A stream with no components leaves the minimum as
`None` and the subtraction raises a TypeError. -/
def BufferingStreamApplication.cleanup_stream (compBuf : List (Char × List Record))
    (buffer_length : Int) : Except PyErr (List (Char × List Record)) :=
  match BufferingStreamApplication.minLastEnd compBuf none with
  | Except.error e => Except.error e
  | Except.ok none => Except.error PyErr.typeError
  | Except.ok (some end_time) =>
      let start_time := end_time - buffer_length
      Except.ok (compBuf.map (fun p =>
        (p.1, p.2.filter (fun r => decide (start_time < r.endTime)))))

theorem dlookup_dset {K V : Type} [DecidableEq K] (d : List (K × V)) (k k' : K) (v : V) :
    dlookup (dset d k v) k' = if k = k' then some v else dlookup d k' := by
  induction d with
  | nil => simp [dset, dlookup]
  | cons p rest ih =>
      obtain ⟨a, w⟩ := p
      by_cases h : a = k
      · subst h
        by_cases h2 : a = k'
        · subst h2
          simp [dset, dlookup]
        · simp [dset, dlookup, h2]
      · by_cases h2 : a = k'
        · subst h2
          have h3 : k ≠ a := fun hh => h hh.symm
          simp [dset, dlookup, h, h3]
        · simp [dset, dlookup, h, h2, ih]

theorem dlookup_dset_self {K V : Type} [DecidableEq K] (d : List (K × V)) (k : K) (v : V) :
    dlookup (dset d k v) k = some v := by
  simp [dlookup_dset]

theorem dlookup_none_iff {K V : Type} [DecidableEq K] (d : List (K × V)) (k : K) :
    dlookup d k = none ↔ k ∉ d.map Prod.fst := by
  induction d with
  | nil => simp [dlookup]
  | cons p rest ih =>
      by_cases h : p.1 = k
      · simp [dlookup, h]
      · have h2 : k ≠ p.1 := fun hh => h hh.symm
        simp [dlookup, h, h2, ih]

theorem dlookup_some_mem {K V : Type} [DecidableEq K] {d : List (K × V)} {k : K} {v : V}
    (h : dlookup d k = some v) : (k, v) ∈ d := by
  induction d with
  | nil => simp [dlookup] at h
  | cons p rest ih =>
      obtain ⟨a, w⟩ := p
      by_cases h2 : a = k
      · subst h2
        simp [dlookup] at h
        subst h
        exact List.mem_cons_self _ _
      · simp [dlookup, h2] at h
        exact List.mem_cons_of_mem _ (ih h)

theorem dlookup_mem_nodup {K V : Type} [DecidableEq K] {d : List (K × V)} {k : K} {v : V}
    (hn : (d.map Prod.fst).Nodup) (h : (k, v) ∈ d) : dlookup d k = some v := by
  induction d with
  | nil => simp at h
  | cons p rest ih =>
      simp only [List.map_cons, List.nodup_cons] at hn
      rcases List.mem_cons.mp h with h1 | h1
      · subst h1
        simp [dlookup]
      · have hk : p.1 ≠ k := by
          intro he
          exact hn.1 (he ▸ (List.mem_map.mpr ⟨(k, v), h1, rfl⟩))
        simp [dlookup, hk]
        exact ih hn.2 h1

theorem dset_of_lookup_none {K V : Type} [DecidableEq K] {d : List (K × V)} {k : K}
    (h : dlookup d k = none) (v : V) : dset d k v = d ++ [(k, v)] := by
  induction d with
  | nil => simp [dset]
  | cons p rest ih =>
      by_cases h2 : p.1 = k
      · simp [dlookup, h2] at h
      · simp [dlookup, h2] at h
        simp [dset, h2, ih h]

theorem keys_dset_mem {K V : Type} [DecidableEq K] {d : List (K × V)} {k : K}
    (h : k ∈ d.map Prod.fst) (v : V) : (dset d k v).map Prod.fst = d.map Prod.fst := by
  induction d with
  | nil => simp at h
  | cons p rest ih =>
      obtain ⟨a, w⟩ := p
      by_cases h2 : a = k
      · subst h2
        simp [dset]
      · have h3 : k ∈ rest.map Prod.fst := by
          rcases List.mem_cons.mp h with h4 | h4
          · exact absurd h4.symm h2
          · exact h4
        simp [dset, h2, ih h3]

theorem keys_dset_not_mem {K V : Type} [DecidableEq K] {d : List (K × V)} {k : K}
    (h : k ∉ d.map Prod.fst) (v : V) :
    (dset d k v).map Prod.fst = d.map Prod.fst ++ [k] := by
  rw [dset_of_lookup_none ((dlookup_none_iff d k).mpr h) v]
  simp

theorem keys_dset_nodup {K V : Type} [DecidableEq K] {d : List (K × V)} {k : K}
    (h : (d.map Prod.fst).Nodup) (v : V) : ((dset d k v).map Prod.fst).Nodup := by
  by_cases h2 : k ∈ d.map Prod.fst
  · rw [keys_dset_mem h2]
    exact h
  · rw [keys_dset_not_mem h2]
    simp [List.nodup_append, h, h2]

theorem mem_dset {K V : Type} [DecidableEq K] {d : List (K × V)} {k : K} {v : V} {p : K × V}
    (h : p ∈ dset d k v) : p = (k, v) ∨ p ∈ d := by
  induction d with
  | nil => simp [dset] at h; left; exact h
  | cons q rest ih =>
      obtain ⟨a, w⟩ := q
      by_cases h2 : a = k
      · subst h2
        simp [dset] at h
        rcases h with h | h
        · left; exact h
        · right; exact List.mem_cons_of_mem _ h
      · simp [dset, h2] at h
        rcases h with h | h
        · right; exact List.mem_cons.mpr (Or.inl h)
        · rcases ih h with h3 | h3
          · left; exact h3
          · right; exact List.mem_cons_of_mem _ h3

theorem derase_of_not_mem {K V : Type} [DecidableEq K] {d : List (K × V)} {k : K}
    (h : k ∉ d.map Prod.fst) : derase d k = d := by
  induction d with
  | nil => rfl
  | cons p rest ih =>
      have h1 : p.1 ≠ k := by
        intro he
        exact h (List.mem_cons.mpr (Or.inl he.symm))
      have h2 : k ∉ rest.map Prod.fst := by
        intro he
        exact h (List.mem_cons.mpr (Or.inr he))
      unfold derase at ih ⊢
      rw [List.filter_cons]
      have h3 : (decide (p.1 ≠ k)) = true := by simp [h1]
      rw [if_pos h3, ih h2]

theorem dlookup_derase_self {K V : Type} [DecidableEq K] (d : List (K × V)) (k : K) :
    dlookup (derase d k) k = none := by
  rw [dlookup_none_iff]
  intro h
  rcases List.mem_map.mp h with ⟨p, hp, he⟩
  rcases List.mem_filter.mp hp with ⟨_, hf⟩
  rw [he] at hf
  simp at hf

theorem mem_derase {K V : Type} [DecidableEq K] {d : List (K × V)} {k : K} {p : K × V}
    (h : p ∈ derase d k) : p ∈ d ∧ p.1 ≠ k := by
  rcases List.mem_filter.mp h with ⟨h1, h2⟩
  simp at h2
  exact ⟨h1, h2⟩

theorem itemsOf_append (a b : List (StreamKey × List RequestItem)) :
    itemsOf (a ++ b) = itemsOf a ++ itemsOf b := by
  simp [itemsOf]

theorem itemsOf_dset_perm {d : List (StreamKey × List RequestItem)} {k : StreamKey}
    (hn : (d.map Prod.fst).Nodup) (v : List RequestItem) :
    List.Perm (itemsOf (dset d k v)) (v ++ itemsOf (derase d k)) := by
  induction d with
  | nil => simp [dset, derase, itemsOf]
  | cons p rest ih =>
      obtain ⟨a, w⟩ := p
      simp only [List.map_cons, List.nodup_cons] at hn
      by_cases h2 : a = k
      · subst h2
        have hr : derase rest a = rest := derase_of_not_mem hn.1
        have hd : derase ((a, w) :: rest) a = derase rest a := by
          simp [derase, List.filter]
        rw [hd, hr]
        simp [dset, itemsOf]
      · have hd : derase ((a, w) :: rest) k = (a, w) :: derase rest k := by
          have h3 : a ≠ k := h2
          simp [derase, List.filter, h3]
        rw [hd]
        simp only [dset, if_neg h2]
        have e1 : itemsOf ((a, w) :: dset rest k v) = w ++ itemsOf (dset rest k v) := by
          simp [itemsOf]
        have e2 : itemsOf ((a, w) :: derase rest k) = w ++ itemsOf (derase rest k) := by
          simp [itemsOf]
        rw [e1, e2]
        have p1 : List.Perm (w ++ itemsOf (dset rest k v))
            (w ++ (v ++ itemsOf (derase rest k))) := (ih hn.2).append_left w
        have p2 : List.Perm (w ++ (v ++ itemsOf (derase rest k)))
            (v ++ (w ++ itemsOf (derase rest k))) := by
          rw [← List.append_assoc, ← List.append_assoc]
          exact List.Perm.append_right _ List.perm_append_comm
        exact p1.trans p2

theorem itemsOf_lookup_perm {d : List (StreamKey × List RequestItem)} {k : StreamKey}
    {v : List RequestItem} (hn : (d.map Prod.fst).Nodup) (h : dlookup d k = some v) :
    List.Perm (itemsOf d) (v ++ itemsOf (derase d k)) := by
  induction d with
  | nil => simp [dlookup] at h
  | cons p rest ih =>
      obtain ⟨a, w⟩ := p
      simp only [List.map_cons, List.nodup_cons] at hn
      by_cases h2 : a = k
      · subst h2
        simp [dlookup] at h
        subst h
        have hr : derase rest a = rest := derase_of_not_mem hn.1
        have hd : derase ((a, w) :: rest) a = derase rest a := by
          simp [derase, List.filter]
        rw [hd, hr]
        simp [itemsOf]
      · simp [dlookup, h2] at h
        have hd : derase ((a, w) :: rest) k = (a, w) :: derase rest k := by
          have h3 : a ≠ k := h2
          simp [derase, List.filter, h3]
        rw [hd]
        have e1 : itemsOf ((a, w) :: rest) = w ++ itemsOf rest := by simp [itemsOf]
        have e2 : itemsOf ((a, w) :: derase rest k) = w ++ itemsOf (derase rest k) := by
          simp [itemsOf]
        rw [e1, e2]
        have p1 : List.Perm (w ++ itemsOf rest)
            (w ++ (v ++ itemsOf (derase rest k))) := (ih hn.2 h).append_left w
        have p2 : List.Perm (w ++ (v ++ itemsOf (derase rest k)))
            (v ++ (w ++ itemsOf (derase rest k))) := by
          rw [← List.append_assoc, ← List.append_assoc]
          exact List.Perm.append_right _ List.perm_append_comm
        exact p1.trans p2

theorem eraseFirstOid_sublist (l : List RequestItem) (o : Nat) :
    List.Sublist (eraseFirstOid l o) l := by
  induction l with
  | nil => simp [eraseFirstOid]
  | cons x rest ih =>
      by_cases h : x.oid = o
      · rw [eraseFirstOid, if_pos h]
        exact List.sublist_cons_self x rest
      · rw [eraseFirstOid, if_neg h]
        exact List.Sublist.cons₂ x ih

theorem perm_eraseFirstOid {l : List RequestItem} {it : RequestItem}
    (hn : (l.map RequestItem.oid).Nodup) (h : it ∈ l) :
    List.Perm l (it :: eraseFirstOid l it.oid) := by
  induction l with
  | nil => simp at h
  | cons x rest ih =>
      simp only [List.map_cons, List.nodup_cons] at hn
      by_cases h2 : x.oid = it.oid
      · have hx : x = it := by
          rcases List.mem_cons.mp h with h3 | h3
          · exact h3.symm
          · exfalso
            apply hn.1
            rw [h2]
            exact List.mem_map.mpr ⟨it, h3, rfl⟩
        subst hx
        rw [eraseFirstOid, if_pos rfl]
      · have h3 : it ∈ rest := by
          rcases List.mem_cons.mp h with h4 | h4
          · exact absurd (h4 ▸ rfl) h2
          · exact h4
        have hp := ih hn.2 h3
        rw [eraseFirstOid, if_neg h2]
        exact (hp.cons x).trans (List.Perm.swap it x _)

theorem dlookup_map_entry {K V W : Type} [DecidableEq K] (l : List (K × V))
    (g : K → V → W) (k : K) :
    dlookup (l.map (fun p => (p.1, g p.1 p.2))) k = (dlookup l k).map (g k) := by
  induction l with
  | nil => simp [dlookup]
  | cons p rest ih =>
      obtain ⟨a, w⟩ := p
      by_cases h : a = k
      · subst h
        simp [dlookup]
      · simp [dlookup, h, ih]

/-- Concrete stream key used by the evaluation scenarios below. -/
def keyA : StreamKey := { net := "GR", sta := "FUR", loc := "--", cha := "HH" }

/-- Metadata (inventory) table granting `keyA` the three usual
orientation components. -/
def invA : List (StreamKey × List Char) := [(keyA, ['Z', 'N', 'E'])]

/-- A pick on the vertical channel of `keyA`. -/
def pickA : Pick :=
  { publicID := "Pick/A1", net := "GR", sta := "FUR", loc := "", cha := "HHZ", time := 1000 }

/-- The pristine application state. -/
def st0 : AppState :=
  { buffer := [], end_time := [], request := [], request_by_nslc := [], nextOid := 0 }

/-- A vertical-component record on `keyA` spanning time 0 to 100. -/
def recZ : Record :=
  { net := "GR", sta := "FUR", loc := "", chaBase := "HH", comp := 'Z',
    startTime := 0, endTime := 100 }


/-- Pending request on `keyA` wanting window 0 to 50, used by the
matching-pass scenarios. -/
def reqP : RequestItem :=
  { oid := 0, pickID := "Pick/P", nslc := keyA, components := ['Z', 'N', 'E'],
    start_time := 0, end_time := 50, expires := 100000, finished := false,
    hasData := false, data := [] }

/-- A second pending request identical to `reqP` up to identity. -/
def reqQ : RequestItem := { reqP with oid := 1, pickID := "Pick/Q" }

/-- State with the two requests `reqP`, `reqQ` pending on `keyA`. -/
def st5 : AppState :=
  { buffer := [], end_time := []
    request := [(reqP.pickID, reqP), (reqQ.pickID, reqQ)]
    request_by_nslc := [(keyA, [reqP, reqQ])]
    nextOid := 2 }

/-- C2: the code has no duplicate-pick check at all.  Delivering the very
same pick twice to the streaming client's `processPick` overwrites the
by-pick entry (the stored request is the second object, not the first)
and appends a second entry to the by-key list, after which the by-pick
total is 1 while the by-key total is 2 — the exact state on which the
`assert count_1 == count_2` of `processData` fires at the next
completion.  The claimed DuplicatePick no-op does not exist. -/
theorem C2_duplicate_pick_is_not_rejected :
    countByPick (StreamBufferApp.processPick
      (StreamBufferApp.processPick st0 invA 0 120 240 1800 pickA)
      invA 0 120 240 1800 pickA) = 1 ∧
    countByNslc (StreamBufferApp.processPick
      (StreamBufferApp.processPick st0 invA 0 120 240 1800 pickA)
      invA 0 120 240 1800 pickA) = 2 ∧
    dlookup (StreamBufferApp.processPick
      (StreamBufferApp.processPick st0 invA 0 120 240 1800 pickA)
      invA 0 120 240 1800 pickA).request pickA.publicID ≠
    dlookup (StreamBufferApp.processPick st0 invA 0 120 240 1800 pickA).request
      pickA.publicID := by decide

/-- C3 counterexample: the index-count invariant does not hold after
every registration — registering the same pick identity twice leaves the
by-pick mapping with one entry but the by-key mapping with two. -/
theorem C3_counterexample_duplicate_registration :
    countByPick (StreamBufferApp.processPick
      (StreamBufferApp.processPick st0 invA 0 120 240 1800 pickA)
      invA 0 120 240 1800 pickA) ≠
    countByNslc (StreamBufferApp.processPick
      (StreamBufferApp.processPick st0 invA 0 120 240 1800 pickA)
      invA 0 120 240 1800 pickA) := by decide

/-- C5: one record arrival makes both pending requests of `keyA`
satisfiable, yet only the first is completed and handed over in that
pass; `reqQ`, although satisfiable by the very same test, is skipped —
the `for` loop's index advances over the list that `remove` just
shortened — and stays pending in both mappings until a further record
arrives.  The claim that every satisfiable request is processed in that
single matching pass fails. -/
theorem C5_second_satisfiable_request_is_skipped :
    ((StreamBufferApp.handleRecord st5 recZ).2.map RequestItem.pickID = [reqP.pickID]) ∧
    (dlookup (StreamBufferApp.handleRecord st5 recZ).1.request_by_nslc keyA = some [reqQ]) ∧
    (StreamBufferApp.finishedTest
      ((dlookup (StreamBufferApp.handleRecord st5 recZ).1.end_time keyA).getD [])
      reqQ.end_time = true) ∧
    (dlookup (StreamBufferApp.handleRecord st5 recZ).1.request reqQ.pickID = some reqQ) := by
  decide

/-- An already expired request on `keyA` whose stream key has received no
record during the sweep. -/
def reqExp : RequestItem :=
  { oid := 0, pickID := "Pick/Exp", nslc := keyA, components := ['Z', 'N', 'E'],
    start_time := 880, end_time := 1240, expires := 5, finished := false,
    hasData := false, data := [] }

/-- C7: the expiry sweep of the polling client is not crash-free.  For a
request past its deadline whose stream key received no record at all
during the sweep (`end_time` has no entry for it), the per-component
logging loop evaluates `end_time[request_item.nslc]` and raises a
KeyError, killing the sweep instead of dropping the request. -/
theorem C7_expiry_sweep_keyerror :
    PollingApp.processPendingPicks [(reqExp.pickID, reqExp)] [] 10 =
      Except.error PyErr.keyError := by decide

theorem finishedTest_eq_true_iff (et : List (Char × Int)) (e : Int) :
    StreamBufferApp.finishedTest et e = true ↔ ∀ p ∈ et, e ≤ p.2 := by
  simp [StreamBufferApp.finishedTest]

theorem finishedTest_eq_false_iff (et : List (Char × Int)) (e : Int) :
    StreamBufferApp.finishedTest et e = false ↔ ∃ p ∈ et, p.2 < e := by
  rw [Bool.eq_false_iff, Ne, finishedTest_eq_true_iff]
  push_neg
  rfl

theorem pollingFinished_iff (it : RequestItem) (et : List (StreamKey × List (Char × Int)))
    (hf : it.finished = false) :
    PollingApp.finishedCheck it et = true ↔
      ∃ m, dlookup et it.nslc = some m ∧
        ∀ c ∈ it.components, ∃ t, dlookup m c = some t ∧ it.end_time ≤ t := by
  unfold PollingApp.finishedCheck
  cases hm : dlookup et it.nslc with
  | none => simp [hf]
  | some m =>
      have hc : ∀ c : Char,
          ((match dlookup m c with
            | none => false
            | some t => decide (it.end_time ≤ t)) = true) ↔
          (∃ t, dlookup m c = some t ∧ it.end_time ≤ t) := by
        intro c
        cases h : dlookup m c with
        | none => simp
        | some t => simp
      simp only [hf, Bool.false_or, List.all_eq_true, hc, Option.some.injEq]
      constructor
      · intro h
        exact ⟨m, rfl, h⟩
      · rintro ⟨m2, he, h⟩
        subst he
        exact h

theorem matchLoop_singleton (k : StreamKey) (et : List (Char × Int))
    (compBuf : List (Char × List Record)) (item : RequestItem)
    (rbn : List (StreamKey × List RequestItem)) (request : List (String × RequestItem))
    (hk : item.nslc = k) :
    StreamBufferApp.matchLoop k et compBuf 1 0 [item] rbn request [] =
      (if StreamBufferApp.finishedTest et item.end_time then
        { lst := []
          request_by_nslc := rbn
          request := derase request item.pickID
          exported := [{ item with
            finished := true
            hasData := true
            data := StreamBufferApp.extractWindow compBuf item.start_time item.end_time }] }
      else
        { lst := [item], request_by_nslc := rbn, request := request, exported := [] }) := by
  by_cases hf : StreamBufferApp.finishedTest et item.end_time = true
  · simp only [StreamBufferApp.matchLoop, hf]
    simp [hf, hk, eraseFirstOid]
  · rw [Bool.not_eq_true] at hf
    simp only [StreamBufferApp.matchLoop, hf]
    simp [hf]

theorem handleRecord_singleton (st : AppState) (r : Record) (item : RequestItem)
    (hl : dlookup st.request_by_nslc r.key = some [item]) (hk : item.nslc = r.key) :
    StreamBufferApp.handleRecord st r =
      (if StreamBufferApp.finishedTest
          ((dlookup (StreamBufferApp.storeRecord st r).end_time r.key).getD [])
          item.end_time then
        ({ StreamBufferApp.storeRecord st r with
            request := derase st.request item.pickID
            request_by_nslc := dset st.request_by_nslc r.key [] },
         [{ item with
            finished := true
            hasData := true
            data := StreamBufferApp.extractWindow
              ((dlookup (StreamBufferApp.storeRecord st r).buffer r.key).getD [])
              item.start_time item.end_time }])
      else
        ({ StreamBufferApp.storeRecord st r with
            request_by_nslc := dset st.request_by_nslc r.key [item] },
         [])) := by
  have hl2 : dlookup (StreamBufferApp.storeRecord st r).request_by_nslc r.key = some [item] :=
    hl
  have hreq : (StreamBufferApp.storeRecord st r).request = st.request := rfl
  have hrbn : (StreamBufferApp.storeRecord st r).request_by_nslc = st.request_by_nslc := rfl
  simp only [StreamBufferApp.handleRecord, hl2]
  rw [show ([item] : List RequestItem).length = 1 from rfl]
  rw [matchLoop_singleton _ _ _ _ _ _ hk]
  by_cases hf : StreamBufferApp.finishedTest
      ((dlookup (StreamBufferApp.storeRecord st r).end_time r.key).getD [])
      item.end_time = true
  · simp [hf, hreq, hrbn]
  · rw [Bool.not_eq_true] at hf
    simp [hf, hrbn]

/-- A pending request on `keyA` requiring all three components. -/
def reqR : RequestItem := { reqP with oid := 0, pickID := "Pick/R" }

/-- State with only `reqR` pending and a completely empty buffer. -/
def st1c : AppState :=
  { buffer := [], end_time := []
    request := [(reqR.pickID, reqR)]
    request_by_nslc := [(keyA, [reqR])]
    nextOid := 1 }

/-- C1 counterexample: a single vertical-component record arrival makes
the streaming matcher complete and retire `reqR` even though the request
also requires components N and E, neither of which has ever been
observed (no high-water mark exists for them).  The claim that a
never-observed required component makes the request not satisfiable is
false for the streaming clients: the completion test only ranges over
the components the buffer has seen. -/
theorem C1_counterexample_missing_component_completes :
    ((StreamBufferApp.handleRecord st1c recZ).2.map RequestItem.pickID = [reqR.pickID]) ∧
    ('N' ∈ reqR.components) ∧
    (dlookup ((dlookup (StreamBufferApp.handleRecord st1c recZ).1.end_time keyA).getD [])
      'N' = none) ∧
    (dlookup (StreamBufferApp.handleRecord st1c recZ).1.request reqR.pickID = none) := by
  decide

/-- C1, amended: in the streaming clients a pending request (here the
sole request for its stream key) is completed and retired by a record
arrival exactly when every component that has a high-water mark for that
stream key has reached the request's window end — the request's own
required component set is not consulted, so a required component that
was never observed does not block completion.  The polling client, by
contrast, implements the criterion of the original claim: its completion
check succeeds exactly when the stream key has been observed and every
one of the request's own required components has a high-water mark at or
beyond the window end, a missing component blocking completion. -/
theorem C1_completion_criterion (st : AppState) (r : Record) (item : RequestItem)
    (hl : dlookup st.request_by_nslc r.key = some [item]) (hk : item.nslc = r.key) :
    ((StreamBufferApp.handleRecord st r).2.map RequestItem.pickID = [item.pickID] ∧
      dlookup (StreamBufferApp.handleRecord st r).1.request item.pickID = none ∧
      dlookup (StreamBufferApp.handleRecord st r).1.request_by_nslc r.key = some [] ↔
      ∀ p ∈ (dlookup (StreamBufferApp.storeRecord st r).end_time r.key).getD [],
        item.end_time ≤ p.2) ∧
    ((StreamBufferApp.handleRecord st r).2 = [] ∧
      dlookup (StreamBufferApp.handleRecord st r).1.request_by_nslc r.key = some [item] ↔
      ∃ p ∈ (dlookup (StreamBufferApp.storeRecord st r).end_time r.key).getD [],
        p.2 < item.end_time) ∧
    (∀ it2 : RequestItem, ∀ et2 : List (StreamKey × List (Char × Int)),
      it2.finished = false →
      (PollingApp.finishedCheck it2 et2 = true ↔
        ∃ m, dlookup et2 it2.nslc = some m ∧
          ∀ c ∈ it2.components, ∃ t, dlookup m c = some t ∧ it2.end_time ≤ t)) := by
  rw [handleRecord_singleton st r item hl hk]
  by_cases hf : StreamBufferApp.finishedTest
      ((dlookup (StreamBufferApp.storeRecord st r).end_time r.key).getD [])
      item.end_time = true
  · rw [if_pos hf]
    refine ⟨?_, ?_, ?_⟩
    · simp only [List.map_cons, List.map_nil]
      constructor
      · intro _
        exact (finishedTest_eq_true_iff _ _).mp hf
      · intro _
        exact ⟨trivial, dlookup_derase_self _ _, dlookup_dset_self _ _ _⟩
    · constructor
      · intro h
        cases h.1
      · intro h
        rcases h with ⟨p, hp, h2⟩
        exact absurd ((finishedTest_eq_true_iff _ _).mp hf p hp) (not_le.mpr h2)
    · intro it2 et2 h2
      exact pollingFinished_iff it2 et2 h2
  · rw [Bool.not_eq_true] at hf
    rw [if_neg (by rw [hf]; exact Bool.false_ne_true)]
    refine ⟨?_, ?_, ?_⟩
    · constructor
      · intro h
        cases h.1
      · intro h
        exact absurd ((finishedTest_eq_true_iff _ _).mpr h) (by rw [hf]; exact Bool.false_ne_true)
    · constructor
      · intro _
        exact (finishedTest_eq_false_iff _ _).mp hf
      · intro _
        exact ⟨rfl, dlookup_dset_self _ _ _⟩
    · intro it2 et2 h2
      exact pollingFinished_iff it2 et2 h2

theorem C1_completion_criterion_witness :
    (StreamBufferApp.handleRecord st1c recZ).2.map RequestItem.pickID = [reqR.pickID] ∧
    dlookup (StreamBufferApp.handleRecord st1c recZ).1.request reqR.pickID = none ∧
    dlookup (StreamBufferApp.handleRecord st1c recZ).1.request_by_nslc recZ.key = some [] :=
  ((C1_completion_criterion st1c recZ reqR (by decide) (by decide)).1).mpr (by decide)

/-- C9: membership in the extracted per-component record set of a
satisfied request is exactly the strict overlap test of the source: a
record is extracted for component `c` precisely when it is buffered
under `c`, its end time is at least the window start `t1` and its start
time is at most the window end `t2`; records with end < t1 or start >
t2 are excluded, partially overlapping ones are included in full. -/
theorem C9_extract_overlap_test (compBuf : List (Char × List Record)) (t1 t2 : Int)
    (c : Char) (r : Record) :
    (r ∈ (dlookup (StreamBufferApp.extractWindow compBuf t1 t2) c).getD []) ↔
      (r ∈ (dlookup compBuf c).getD [] ∧ t1 ≤ r.endTime ∧ r.startTime ≤ t2) := by
  unfold StreamBufferApp.extractWindow
  rw [dlookup_map_entry compBuf
    (fun _ l => l.filter (fun q => decide (t1 ≤ q.endTime) && decide (q.startTime ≤ t2))) c]
  cases h : dlookup compBuf c with
  | none => simp
  | some l =>
      simp [List.mem_filter]

/-- Whether an `Except` computation succeeded. -/
def isOkB {α : Type} (e : Except PyErr α) : Bool :=
  match e with
  | Except.ok _ => true
  | Except.error _ => false

/-- The success value of an `Except` computation, with a default. -/
def resultD {α : Type} (e : Except PyErr α) (d : α) : α :=
  match e with
  | Except.ok a => a
  | Except.error _ => d

/-- The per-component data attached to the `n`-th request of a batch
returned by the archive fallback. -/
def dataOfNth (e : Except PyErr (List RequestItem)) (n : Nat) (c : Char) :
    Option (List Record) :=
  match e with
  | Except.ok l =>
      match l[n]? with
      | some it => dlookup it.data c
      | none => none
  | Except.error _ => none

/-- The finished flag of the `n`-th request of a batch returned by the
archive fallback. -/
def finishedOfNth (e : Except PyErr (List RequestItem)) (n : Nat) : Option Bool :=
  match e with
  | Except.ok l =>
      match l[n]? with
      | some it => some it.finished
      | none => none
  | Except.error _ => none

/-- C4 counterexample: for a pick whose stream key has never been
observed live (`end_time` has no entry for it), the messaging client's
`processPick` does dispatch to the archive immediately, but it also
registers the request in the by-pick mapping and in the by-key list —
the request ends up marked finished yet still present in both indices,
contradicting the claim that it is never registered for live matching. -/
theorem C4_counterexample_registered_before_fetch :
    (dlookup st0.end_time pickA.key = none) ∧
    (isOkB (PickWaveformDumperApp.processPick st0 invA 0 120 240 1800 3600 [] pickA)
      = true) ∧
    (dlookup (resultD (PickWaveformDumperApp.processPick st0 invA 0 120 240 1800 3600 []
      pickA) st0).request pickA.publicID ≠ none) ∧
    (countByNslc (resultD (PickWaveformDumperApp.processPick st0 invA 0 120 240 1800 3600 []
      pickA) st0) = 1) ∧
    (finishedOfNth (Except.ok ((dlookup (resultD (PickWaveformDumperApp.processPick st0 invA
      0 120 240 1800 3600 [] pickA) st0).request_by_nslc keyA).getD [])) 0 = some true) := by
  decide

/-- An already buffered live record for component Z of `keyA`. -/
def recOld : Record :=
  { net := "GR", sta := "FUR", loc := "", chaBase := "HH", comp := 'Z',
    startTime := 0, endTime := 30 }

/-- The single record the simulated archive source returns. -/
def recArc : Record :=
  { net := "GR", sta := "FUR", loc := "", chaBase := "HH", comp := 'Z',
    startTime := 40, endTime := 80 }

/-- A request that already has live data attached for component Z (the
incomplete-after-live-match path re-dispatches such requests). -/
def item6 : RequestItem :=
  { oid := 0, pickID := "Pick/B6", nslc := keyA, components := ['Z'],
    start_time := 0, end_time := 100, expires := 2000, finished := false,
    hasData := true, data := [('Z', [recOld])] }

/-- A fresh request targeting `keyA`, batched with a second one below. -/
def item6a : RequestItem := { item6 with oid := 1, pickID := "Pick/B6a", hasData := false, data := [] }

/-- A second fresh request targeting the same stream key as `item6a`. -/
def item6b : RequestItem := { item6a with oid := 2, pickID := "Pick/B6b" }

/-- C6 counterexample: the data attached after `fetchArchiveData` is not
in general exactly what the archive returned.  A request that already
holds live records keeps them and the archive records are appended
(`[recOld, recArc]`, not `[recArc]`); and in a batch of two requests on
the same stream key the by-key dict comprehension keeps only the last, so
all records go to the second request while the first ends up with an
empty list even though the archive returned `recArc` for its window. -/
theorem C6_counterexample_not_exactly_archive :
    (dataOfNth (PickWaveformDumperApp.fetchArchiveData [item6] [recArc]) 0 'Z'
      = some [recOld, recArc]) ∧
    ([recOld, recArc] ≠ [recArc]) ∧
    (dataOfNth (PickWaveformDumperApp.fetchArchiveData [item6a, item6b] [recArc]) 0 'Z'
      = some []) ∧
    (dataOfNth (PickWaveformDumperApp.fetchArchiveData [item6a, item6b] [recArc]) 1 'Z'
      = some [recArc]) ∧
    (item6a.nslc = item6b.nslc) := by
  decide

theorem minLastEnd_some (l : List (Char × List Record)) :
    ∀ a : Int, (∀ p ∈ l, p.2 ≠ []) →
    ∃ v : Int, BufferingStreamApplication.minLastEnd l (some a) = Except.ok (some v) ∧
      v ≤ a ∧
      (v = a ∨ ∃ p ∈ l, ∃ r, p.2.getLast? = some r ∧ r.endTime = v) ∧
      (∀ p ∈ l, ∀ r, p.2.getLast? = some r → v ≤ r.endTime) := by
  induction l with
  | nil =>
      intro a _
      refine ⟨a, rfl, le_refl a, Or.inl rfl, ?_⟩
      intro p hp
      simp at hp
  | cons q rest ih =>
      intro a hne
      obtain ⟨c, rl⟩ := q
      have hrl : rl ≠ [] := hne (c, rl) (List.mem_cons_self _ _)
      obtain ⟨r, hr⟩ := Option.isSome_iff_exists.mp (List.getLast?_isSome.mpr hrl)
      have hstep : BufferingStreamApplication.minLastEnd ((c, rl) :: rest) (some a) =
          BufferingStreamApplication.minLastEnd rest
            (if r.endTime < a then some r.endTime else some a) := by
        simp [BufferingStreamApplication.minLastEnd, hr]
      have hrest : ∀ p ∈ rest, p.2 ≠ [] := fun p hp => hne p (List.mem_cons_of_mem _ hp)
      by_cases hlt : r.endTime < a
      · rw [hstep, if_pos hlt]
        obtain ⟨v, hv, hva, hattain, hbound⟩ := ih r.endTime hrest
        refine ⟨v, hv, le_trans hva (le_of_lt hlt), ?_, ?_⟩
        · rcases hattain with he | ⟨p, hp, rr, hrr, hee⟩
          · right
            exact ⟨(c, rl), List.mem_cons_self _ _, r, hr, he.symm⟩
          · right
            exact ⟨p, List.mem_cons_of_mem _ hp, rr, hrr, hee⟩
        · intro p hp rr hrr
          rcases List.mem_cons.mp hp with h1 | h1
          · subst h1
            rw [hr] at hrr
            cases hrr
            exact hva
          · exact hbound p h1 rr hrr
      · rw [hstep, if_neg hlt]
        push_neg at hlt
        obtain ⟨v, hv, hva, hattain, hbound⟩ := ih a hrest
        refine ⟨v, hv, hva, ?_, ?_⟩
        · rcases hattain with he | ⟨p, hp, rr, hrr, hee⟩
          · left
            exact he
          · right
            exact ⟨p, List.mem_cons_of_mem _ hp, rr, hrr, hee⟩
        · intro p hp rr hrr
          rcases List.mem_cons.mp hp with h1 | h1
          · subst h1
            rw [hr] at hrr
            cases hrr
            exact le_trans hva hlt
          · exact hbound p h1 rr hrr

theorem minLastEnd_start (l : List (Char × List Record)) (hne : l ≠ [])
    (h : ∀ p ∈ l, p.2 ≠ []) :
    ∃ v : Int, BufferingStreamApplication.minLastEnd l none = Except.ok (some v) ∧
      (∃ p ∈ l, ∃ r, p.2.getLast? = some r ∧ r.endTime = v) ∧
      (∀ p ∈ l, ∀ r, p.2.getLast? = some r → v ≤ r.endTime) := by
  cases l with
  | nil => cases hne rfl
  | cons q rest =>
      obtain ⟨c, rl⟩ := q
      have hrl : rl ≠ [] := h (c, rl) (List.mem_cons_self _ _)
      obtain ⟨r, hr⟩ := Option.isSome_iff_exists.mp (List.getLast?_isSome.mpr hrl)
      have hstep : BufferingStreamApplication.minLastEnd ((c, rl) :: rest) none =
          BufferingStreamApplication.minLastEnd rest (some r.endTime) := by
        simp [BufferingStreamApplication.minLastEnd, hr]
      have hrest : ∀ p ∈ rest, p.2 ≠ [] := fun p hp => h p (List.mem_cons_of_mem _ hp)
      obtain ⟨v, hv, hva, hattain, hbound⟩ := minLastEnd_some rest r.endTime hrest
      rw [hstep]
      refine ⟨v, hv, ?_, ?_⟩
      · rcases hattain with he | ⟨p, hp, rr, hrr, hee⟩
        · exact ⟨(c, rl), List.mem_cons_self _ _, r, hr, he.symm⟩
        · exact ⟨p, List.mem_cons_of_mem _ hp, rr, hrr, hee⟩
      · intro p hp rr hrr
        rcases List.mem_cons.mp hp with h1 | h1
        · subst h1
          rw [hr] at hrr
          cases hrr
          exact hva
        · exact hbound p h1 rr hrr

/-- C8: the trim of `cleanup_stream` discards exactly the records at or
below the cutoff (minimum high-water mark across the key's components
minus the retention span) and keeps all others in their original order.
The hypotheses say each component's sequence is nonempty with its last
record carrying the maximal end time — the high-water mark, as holds
when records arrive in non-decreasing end-time order — and that `mn` is
the minimum of those marks.  Then the trim never discards a record whose
end time is strictly greater than `mn - span`, discards every record
with end time at most `mn - span`, and the retained records form a
sublist (original order) of the component's sequence. -/
theorem C8_trim_cutoff (compBuf : List (Char × List Record)) (span mn : Int)
    (hne : compBuf ≠ [])
    (hnodup : (compBuf.map Prod.fst).Nodup)
    (hlast : ∀ p ∈ compBuf, ∃ r, p.2.getLast? = some r ∧ ∀ q ∈ p.2, q.endTime ≤ r.endTime)
    (hmn1 : ∃ p ∈ compBuf, ∃ r, p.2.getLast? = some r ∧ r.endTime = mn)
    (hmn2 : ∀ p ∈ compBuf, ∀ r, p.2.getLast? = some r → mn ≤ r.endTime) :
    ∃ out, BufferingStreamApplication.cleanup_stream compBuf span = Except.ok out ∧
      ∀ p ∈ compBuf,
        dlookup out p.1 =
          some (p.2.filter (fun r => decide (mn - span < r.endTime))) ∧
        (∀ r ∈ p.2, mn - span < r.endTime →
          r ∈ p.2.filter (fun r => decide (mn - span < r.endTime))) ∧
        (∀ r ∈ p.2.filter (fun r => decide (mn - span < r.endTime)),
          r ∈ p.2 ∧ mn - span < r.endTime) ∧
        List.Sublist (p.2.filter (fun r => decide (mn - span < r.endTime))) p.2 := by
  have hcn : ∀ p ∈ compBuf, p.2 ≠ [] := by
    intro p hp
    obtain ⟨r, hr, _⟩ := hlast p hp
    intro he
    rw [he] at hr
    simp at hr
  obtain ⟨v, hv, hvat, hvb⟩ := minLastEnd_start compBuf hne hcn
  have hvm : v = mn := by
    obtain ⟨p0, hp0, r0, hr0, he0⟩ := hmn1
    obtain ⟨p1, hp1, r1, hr1, he1⟩ := hvat
    have h1 : v ≤ mn := he0 ▸ hvb p0 hp0 r0 hr0
    have h2 : mn ≤ v := he1 ▸ hmn2 p1 hp1 r1 hr1
    omega
  rw [hvm] at hv
  unfold BufferingStreamApplication.cleanup_stream
  rw [hv]
  refine ⟨_, rfl, ?_⟩
  intro p hp
  obtain ⟨c, rl⟩ := p
  refine ⟨?_, ?_, ?_, List.filter_sublist rl⟩
  · rw [dlookup_map_entry compBuf
      (fun _ l => l.filter (fun r => decide (mn - span < r.endTime))) c]
    rw [dlookup_mem_nodup hnodup hp]
    rfl
  · intro r hr hcut
    exact List.mem_filter.mpr ⟨hr, by simpa using hcut⟩
  · intro r hr
    obtain ⟨h1, h2⟩ := List.mem_filter.mp hr
    exact ⟨h1, by simpa using h2⟩

/-- Concrete trim scenario: vertical records ending at 10 and 30, north
record ending at 20; the minimum high-water mark is 20. -/
def compBuf8 : List (Char × List Record) :=
  [('Z', [{ recOld with startTime := 0, endTime := 10 },
          { recOld with startTime := 10, endTime := 30 }]),
   ('N', [{ recOld with comp := 'N', startTime := 5, endTime := 20 }])]

theorem C8_trim_cutoff_witness :
    ∃ out, BufferingStreamApplication.cleanup_stream compBuf8 5 = Except.ok out ∧
      ∀ p ∈ compBuf8,
        dlookup out p.1 =
          some (p.2.filter (fun r => decide (20 - 5 < r.endTime))) ∧
        (∀ r ∈ p.2, 20 - 5 < r.endTime →
          r ∈ p.2.filter (fun r => decide (20 - 5 < r.endTime))) ∧
        (∀ r ∈ p.2.filter (fun r => decide (20 - 5 < r.endTime)),
          r ∈ p.2 ∧ 20 - 5 < r.endTime) ∧
        List.Sublist (p.2.filter (fun r => decide (20 - 5 < r.endTime))) p.2 :=
  C8_trim_cutoff compBuf8 5 20 (by decide) (by decide) (by decide) (by decide) (by decide)

/-- C10: with a positive retention span, the trim can never empty a
component's record list nor fault on its last-element access: for every
stream whose component lists are nonempty, `cleanup_stream` succeeds,
the cutoff (the computed minimum of the last record end times minus the
span) lies strictly below every component's last record end time, and
each component's most recent record survives the trim, so every
component list is again nonempty after the pass. -/
theorem C10_trim_keeps_last (compBuf : List (Char × List Record)) (span : Int)
    (hspan : 0 < span)
    (hnodup : (compBuf.map Prod.fst).Nodup)
    (hne : compBuf ≠ [])
    (hcomp : ∀ p ∈ compBuf, p.2 ≠ []) :
    ∃ v out, BufferingStreamApplication.minLastEnd compBuf none = Except.ok (some v) ∧
      BufferingStreamApplication.cleanup_stream compBuf span = Except.ok out ∧
      ∀ p ∈ compBuf, ∃ l2, dlookup out p.1 = some l2 ∧ l2 ≠ [] ∧
        ∃ r, p.2.getLast? = some r ∧ r ∈ l2 ∧ v - span < r.endTime := by
  obtain ⟨v, hv, hvat, hvb⟩ := minLastEnd_start compBuf hne hcomp
  have hclean : BufferingStreamApplication.cleanup_stream compBuf span =
      Except.ok (compBuf.map (fun p =>
        (p.1, p.2.filter (fun r => decide (v - span < r.endTime))))) := by
    unfold BufferingStreamApplication.cleanup_stream
    rw [hv]
  refine ⟨v, _, hv, hclean, ?_⟩
  intro p hp
  obtain ⟨c, rl⟩ := p
  have hrl : rl ≠ [] := hcomp (c, rl) hp
  obtain ⟨r, hr⟩ := Option.isSome_iff_exists.mp (List.getLast?_isSome.mpr hrl)
  have hvr : v ≤ r.endTime := hvb (c, rl) hp r hr
  have hcut : v - span < r.endTime := by omega
  have hmem : r ∈ rl := by
    obtain ⟨hh, he⟩ := List.mem_getLast?_eq_getLast (Option.mem_def.mpr hr)
    rw [he]
    exact List.getLast_mem hh
  have hmem2 : r ∈ rl.filter (fun r => decide (v - span < r.endTime)) :=
    List.mem_filter.mpr ⟨hmem, by simpa using hcut⟩
  refine ⟨rl.filter (fun r => decide (v - span < r.endTime)), ?_, ?_, r, hr, hmem2, hcut⟩
  · rw [dlookup_map_entry compBuf
      (fun _ l => l.filter (fun r => decide (v - span < r.endTime))) c]
    rw [dlookup_mem_nodup hnodup hp]
    rfl
  · intro he
    rw [he] at hmem2
    simp at hmem2

theorem C10_trim_keeps_last_witness :
    ∃ v out, BufferingStreamApplication.minLastEnd compBuf8 none = Except.ok (some v) ∧
      BufferingStreamApplication.cleanup_stream compBuf8 3600 = Except.ok out ∧
      ∀ p ∈ compBuf8, ∃ l2, dlookup out p.1 = some l2 ∧ l2 ≠ [] ∧
        ∃ r, p.2.getLast? = some r ∧ r ∈ l2 ∧ v - 3600 < r.endTime :=
  C10_trim_keeps_last compBuf8 3600 (by decide) (by decide) (by decide) (by decide)

/-- Whether a record belongs to the archive query of (stream key, component). -/
def matchRecB (k : StreamKey) (c : Char) (rec : Record) : Bool :=
  decide (rec.key = k) && decide (rec.comp = c)

/-- The effect of one successful `appendRec` on one request (appends the
record to the component's list when the component is initialised). -/
def archAppend (it : RequestItem) (rec : Record) : RequestItem :=
  match dlookup it.data rec.comp with
  | some l => { it with data := dset it.data rec.comp (l ++ [rec]) }
  | none => it

theorem exbind_ok {α β : Type} (x : α) (f : α → Except PyErr β) :
    (Except.ok x >>= f) = f x := rfl

theorem exbind_err {α β : Type} (e : PyErr) (f : α → Except PyErr β) :
    ((Except.error e : Except PyErr α) >>= f) = Except.error e := rfl

theorem mapM_append_ok (rec : Record) (o : Nat) :
    ∀ cur : List RequestItem,
    (∀ itc ∈ cur, itc.oid = o → (dlookup itc.data rec.comp).isSome = true) →
    cur.mapM (fun itc => if itc.oid = o then PickWaveformDumperApp.appendRec itc rec
        else Except.ok itc) =
      Except.ok (cur.map (fun itc => if itc.oid = o then archAppend itc rec else itc)) := by
  intro cur
  induction cur with
  | nil =>
      intro _
      rfl
  | cons x rest ih =>
      intro h
      rw [List.mapM_cons]
      by_cases hx : x.oid = o
      · have hs := h x (List.mem_cons_self _ _) hx
        cases hl : dlookup x.data rec.comp with
        | none => rw [hl] at hs; cases hs
        | some l =>
            have happ : PickWaveformDumperApp.appendRec x rec =
                Except.ok (archAppend x rec) := by
              unfold PickWaveformDumperApp.appendRec archAppend
              rw [hl]
            rw [if_pos hx, happ, exbind_ok,
              ih (fun itc hm ho2 => h itc (List.mem_cons_of_mem _ hm) ho2), exbind_ok]
            simp [hx, pure, Except.pure]
      · rw [if_neg hx, exbind_ok,
          ih (fun itc hm ho2 => h itc (List.mem_cons_of_mem _ hm) ho2), exbind_ok]
        simp [hx, pure, Except.pure]

theorem foldl_dset_absent (items : List RequestItem) :
    ∀ (m : List (StreamKey × Nat)) (k : StreamKey), k ∉ items.map RequestItem.nslc →
    dlookup (items.foldl (fun m2 it => dset m2 it.nslc it.oid) m) k = dlookup m k := by
  induction items with
  | nil =>
      intro m k _
      rfl
  | cons x rest ih =>
      intro m k hk
      have h1 : k ≠ x.nslc := by
        intro he
        exact hk (List.mem_cons.mpr (Or.inl he))
      have h2 : k ∉ rest.map RequestItem.nslc := by
        intro he
        exact hk (List.mem_cons.mpr (Or.inr he))
      rw [List.foldl_cons, ih (dset m x.nslc x.oid) k h2, dlookup_dset]
      rw [if_neg (fun he => h1 he.symm)]

theorem byNslcMap_lookup_aux (items : List RequestItem)
    (hn : (items.map RequestItem.nslc).Nodup) :
    ∀ (m : List (StreamKey × Nat)), ∀ it ∈ items,
    dlookup (items.foldl (fun m2 it2 => dset m2 it2.nslc it2.oid) m) it.nslc = some it.oid := by
  induction items with
  | nil =>
      intro m it hm
      simp at hm
  | cons x rest ih =>
      intro m it hm
      simp only [List.map_cons, List.nodup_cons] at hn
      rcases List.mem_cons.mp hm with h1 | h1
      · subst h1
        rw [List.foldl_cons, foldl_dset_absent rest (dset m it.nslc it.oid) it.nslc hn.1,
          dlookup_dset_self]
      · rw [List.foldl_cons]
        exact ih hn.2 (dset m x.nslc x.oid) it h1

theorem byNslcMap_lookup {items : List RequestItem}
    (hn : (items.map RequestItem.nslc).Nodup) :
    ∀ it ∈ items, dlookup (PickWaveformDumperApp.byNslcMap items) it.nslc = some it.oid :=
  fun it hm => byNslcMap_lookup_aux items hn [] it hm

theorem ensure_fold_lookup (comps : List Char) :
    ∀ (d : List (Char × List Record)) (c : Char),
    dlookup (comps.foldl (fun d2 c2 =>
      match dlookup d2 c2 with
      | some _ => d2
      | none => dset d2 c2 []) d) c =
    (match dlookup d c with
     | some v => some v
     | none => if c ∈ comps then some [] else none) := by
  induction comps with
  | nil =>
      intro d c
      cases h : dlookup d c with
      | none => simp [h]
      | some v => simp [h]
  | cons c0 rest ih =>
      intro d c
      rw [List.foldl_cons]
      cases h0 : dlookup d c0 with
      | some v0 =>
          simp only [h0]
          rw [ih d c]
          cases hc : dlookup d c with
          | some v => rfl
          | none =>
              have hne : c ≠ c0 := by
                intro he
                rw [he, h0] at hc
                cases hc
              simp [List.mem_cons, hne]
      | none =>
          simp only [h0]
          rw [ih (dset d c0 []) c, dlookup_dset]
          by_cases he : c0 = c
          · subst he
            rw [if_pos rfl, h0]
            simp
          · rw [if_neg he]
            cases hc : dlookup d c with
            | some v => rfl
            | none =>
                have hne : c ≠ c0 := fun h2 => he h2.symm
                simp [List.mem_cons, hne]

theorem initData_lookup (it : RequestItem) (hd : it.hasData = false) (c : Char) :
    dlookup (PickWaveformDumperApp.initData it).data c =
      if c ∈ it.components then some [] else none := by
  unfold PickWaveformDumperApp.initData
  rw [hd]
  simp only [Bool.false_eq_true, if_false]
  rw [ensure_fold_lookup it.components [] c]
  rfl

theorem map_nodup_index_inj {α β : Type} (f : α → β) (l : List α)
    (hn : (l.map f).Nodup) (i j : Nat) (hi : i < l.length) (hj : j < l.length)
    (he : f l[i] = f l[j]) : i = j := by
  have hi2 : i < (l.map f).length := by simpa using hi
  have hj2 : j < (l.map f).length := by simpa using hj
  apply (@List.Nodup.getElem_inj_iff β (l.map f) hn i hi2 j hj2).mp
  rw [List.getElem_map, List.getElem_map]
  exact he

/-- Invariant of the archive record loop: relative to the original batch
`req` and the records `pre` routed so far, every current request agrees
with its original on all fields except the (initialised) data attribute,
whose per-component lists hold exactly the matching routed records. -/
structure ArchInv (req : List RequestItem) (pre : List Record)
    (cur : List RequestItem) : Prop where
  len : cur.length = req.length
  shape : ∀ j (h1 : j < cur.length) (h2 : j < req.length),
    ∃ d, cur[j] = { req[j] with hasData := true, data := d }
  dataEq : ∀ j (h1 : j < cur.length) (h2 : j < req.length),
    ∀ c ∈ (req[j]).components,
      dlookup (cur[j]).data c = some (pre.filter (matchRecB (req[j]).nslc c))

theorem routeRec_step (req : List RequestItem)
    (hn : (req.map RequestItem.nslc).Nodup) (ho : (req.map RequestItem.oid).Nodup)
    (m : List (StreamKey × Nat))
    (Hm : ∀ it ∈ req, dlookup m it.nslc = some it.oid)
    (rec : Record) (jx : Nat) (hjx : jx < req.length)
    (hkey : rec.key = (req[jx]).nslc) (hcomp : rec.comp ∈ (req[jx]).components)
    (pre : List Record) (cur : List RequestItem) (inv : ArchInv req pre cur) :
    PickWaveformDumperApp.routeRec m cur rec = Except.ok
      (cur.map (fun itc => if itc.oid = (req[jx]).oid then archAppend itc rec else itc)) ∧
    ArchInv req (pre ++ [rec]) (cur.map (fun itc =>
      if itc.oid = (req[jx]).oid then archAppend itc rec else itc)) := by
  have hmem : req[jx] ∈ req := List.getElem_mem hjx
  have hmk : dlookup m rec.key = some (req[jx]).oid := by
    rw [hkey]
    exact Hm _ hmem
  have hsome : ∀ itc ∈ cur, itc.oid = (req[jx]).oid →
      (dlookup itc.data rec.comp).isSome = true := by
    intro itc hitc hoid
    obtain ⟨j, hj, hje⟩ := List.mem_iff_getElem.mp hitc
    have h2 : j < req.length := inv.len ▸ hj
    obtain ⟨d, hshape⟩ := inv.shape j hj h2
    have hoj : (req[j]).oid = (req[jx]).oid := by
      rw [← hoid, ← hje, hshape]
    have hjjx : j = jx := map_nodup_index_inj RequestItem.oid req ho j jx h2 hjx hoj
    subst hjjx
    have := inv.dataEq j hj h2 rec.comp hcomp
    rw [hje] at this
    rw [this]
    rfl
  constructor
  · unfold PickWaveformDumperApp.routeRec
    rw [hmk]
    exact mapM_append_ok rec (req[jx]).oid cur hsome
  · refine ⟨by simpa using inv.len, ?_, ?_⟩
    · intro j h1 h2
      have h1b : j < cur.length := by simpa using h1
      rw [List.getElem_map]
      obtain ⟨d, hshape⟩ := inv.shape j h1b h2
      by_cases hoid : (cur[j]).oid = (req[jx]).oid
      · rw [if_pos hoid]
        unfold archAppend
        cases hl : dlookup (cur[j]).data rec.comp with
        | none => exact ⟨d, hshape⟩
        | some l =>
            refine ⟨dset (cur[j]).data rec.comp (l ++ [rec]), ?_⟩
            rw [hshape]
      · rw [if_neg hoid]
        exact ⟨d, hshape⟩
    · intro j h1 h2 c hc
      have h1b : j < cur.length := by simpa using h1
      rw [List.getElem_map]
      have hdata := inv.dataEq j h1b h2 c hc
      obtain ⟨d, hshape⟩ := inv.shape j h1b h2
      have hoidj : (cur[j]).oid = (req[j]).oid := by rw [hshape]
      by_cases hjjx : j = jx
      · subst hjjx
        rw [if_pos (by rw [hoidj])]
        unfold archAppend
        have hprev := inv.dataEq j h1b h2 rec.comp hcomp
        rw [hprev]
        by_cases hcc : c = rec.comp
        · subst hcc
          rw [dlookup_dset_self]
          have hmatch : matchRecB (req[j]).nslc rec.comp rec = true := by
            unfold matchRecB
            simp [hkey]
          rw [List.filter_append]
          simp [hmatch]
        · rw [dlookup_dset, if_neg (fun he => hcc he.symm), hdata]
          have hmatch : matchRecB (req[j]).nslc c rec = false := by
            unfold matchRecB
            simp
            intro _
            exact fun he => hcc he.symm
          rw [List.filter_append]
          simp [hmatch]
      · have hoid : ¬ (cur[j]).oid = (req[jx]).oid := by
          rw [hoidj]
          intro he
          exact hjjx (map_nodup_index_inj RequestItem.oid req ho j jx h2 hjx he)
        rw [if_neg hoid, hdata]
        have hmatch : matchRecB (req[j]).nslc c rec = false := by
          unfold matchRecB
          have hne : ¬ rec.key = (req[j]).nslc := by
            rw [hkey]
            intro he
            exact hjjx (map_nodup_index_inj RequestItem.nslc req hn j jx h2 hjx he.symm)
          simp [hne]
        rw [List.filter_append]
        simp [hmatch]

theorem archFold_ok (req : List RequestItem)
    (hn : (req.map RequestItem.nslc).Nodup) (ho : (req.map RequestItem.oid).Nodup)
    (m : List (StreamKey × Nat))
    (Hm : ∀ it ∈ req, dlookup m it.nslc = some it.oid) :
    ∀ (archive : List Record), ∀ (pre : List Record) (cur : List RequestItem),
    (∀ rec ∈ archive, ∃ it ∈ req, rec.key = it.nslc ∧ rec.comp ∈ it.components) →
    ArchInv req pre cur →
    ∃ out, List.foldlM (fun its rec => PickWaveformDumperApp.routeRec m its rec) cur archive
        = Except.ok out ∧
      ArchInv req (pre ++ archive) out := by
  intro archive
  induction archive with
  | nil =>
      intro pre cur _ inv
      exact ⟨cur, rfl, by simpa using inv⟩
  | cons rec rest ih =>
      intro pre cur hrec inv
      obtain ⟨it, hit, hk, hc⟩ := hrec rec (List.mem_cons_self _ _)
      obtain ⟨jx, hjx, hje⟩ := List.mem_iff_getElem.mp hit
      rw [← hje] at hk hc
      obtain ⟨hroute, inv2⟩ := routeRec_step req hn ho m Hm rec jx hjx hk hc pre cur inv
      obtain ⟨out, hfold, inv3⟩ :=
        ih (pre ++ [rec]) _ (fun r hr => hrec r (List.mem_cons_of_mem _ hr)) inv2
      refine ⟨out, ?_, ?_⟩
      · rw [List.foldlM_cons, hroute, exbind_ok, hfold]
      · have he : pre ++ [rec] ++ rest = pre ++ rec :: rest := by simp
        rw [← he]
        exact inv3

theorem archInv_init (req : List RequestItem) (hd0 : ∀ it ∈ req, it.hasData = false) :
    ArchInv req [] (req.map PickWaveformDumperApp.initData) := by
  refine ⟨by simp, ?_, ?_⟩
  · intro j h1 h2
    rw [List.getElem_map]
    exact ⟨_, rfl⟩
  · intro j h1 h2 c hc
    rw [List.getElem_map]
    have hl := initData_lookup (req[j]) (hd0 _ (List.getElem_mem h2)) c
    rw [hl, if_pos hc]
    simp

theorem fetchArchiveData_spec (req : List RequestItem) (archive : List Record)
    (hn : (req.map RequestItem.nslc).Nodup)
    (ho : (req.map RequestItem.oid).Nodup)
    (hd0 : ∀ it ∈ req, it.hasData = false)
    (ha : ∀ rec ∈ archive, ∃ it ∈ req, rec.key = it.nslc ∧ rec.comp ∈ it.components) :
    ∃ out, PickWaveformDumperApp.fetchArchiveData req archive = Except.ok out ∧
      out.length = req.length ∧
      ∀ j (h1 : j < out.length) (h2 : j < req.length),
        ∃ d, out[j] = { req[j] with finished := true, hasData := true, data := d } ∧
          (∀ c ∈ (req[j]).components,
            dlookup d c = some (archive.filter (matchRecB (req[j]).nslc c))) ∧
          (∀ c ∈ (req[j]).components,
            (∀ rec ∈ archive, matchRecB (req[j]).nslc c rec = false) →
            dlookup d c = some []) := by
  obtain ⟨out0, hfold, inv⟩ := archFold_ok req hn ho (PickWaveformDumperApp.byNslcMap req)
    (byNslcMap_lookup hn) archive [] (req.map PickWaveformDumperApp.initData)
    ha (archInv_init req hd0)
  have hinv : ArchInv req archive out0 := by simpa using inv
  refine ⟨out0.map (fun it => { it with finished := true }), ?_, by simp [hinv.len], ?_⟩
  · unfold PickWaveformDumperApp.fetchArchiveData
    simp only [hfold]
  · intro j h1 h2
    have h1b : j < out0.length := by simpa using h1
    obtain ⟨d, hshape⟩ := hinv.shape j h1b h2
    have hdata := hinv.dataEq j h1b h2
    rw [hshape] at hdata
    refine ⟨d, ?_, hdata, ?_⟩
    · rw [List.getElem_map, hshape]
    · intro c hc hnone
      have h3 := hdata c hc
      have h4 : archive.filter (matchRecB (req[j]).nslc c) = [] := by
        rw [List.filter_eq_nil_iff]
        intro a ha2
        rw [hnone a ha2]
        exact Bool.false_ne_true
      rw [h4] at h3
      exact h3

/-- C6, amended: after `fetchArchiveData` returns, every request of the
batch is marked completed (finished), never expired.  For a batch whose
requests carry pairwise distinct stream keys and no previously attached
data, and an archive answer containing only records for requested keys
and components, each request ends up with, per required component,
exactly the records the archive returned for that key and component, in
archive order — and an empty list for a component the archive returned
nothing for.  (The counterexample shows both qualifications are needed:
previously attached records are kept with archive records appended, and
with a shared stream key all records go to the last request of the
batch.) -/
theorem C6_archive_completion_unconditional (req : List RequestItem) (archive : List Record)
    (hn : (req.map RequestItem.nslc).Nodup)
    (ho : (req.map RequestItem.oid).Nodup)
    (hd0 : ∀ it ∈ req, it.hasData = false)
    (ha : ∀ rec ∈ archive, ∃ it ∈ req, rec.key = it.nslc ∧ rec.comp ∈ it.components) :
    ∃ out, PickWaveformDumperApp.fetchArchiveData req archive = Except.ok out ∧
      out.length = req.length ∧
      ∀ j (h1 : j < out.length) (h2 : j < req.length),
        ∃ d, out[j] = { req[j] with finished := true, hasData := true, data := d } ∧
          (∀ c ∈ (req[j]).components,
            dlookup d c = some (archive.filter (matchRecB (req[j]).nslc c))) ∧
          (∀ c ∈ (req[j]).components,
            (∀ rec ∈ archive, matchRecB (req[j]).nslc c rec = false) →
            dlookup d c = some []) :=
  fetchArchiveData_spec req archive hn ho hd0 ha

/-- A fresh three-component request batch member for the archive witness. -/
def itemW : RequestItem :=
  { oid := 0, pickID := "Pick/W6", nslc := keyA, components := ['Z', 'N', 'E'],
    start_time := 0, end_time := 100, expires := 2000, finished := false,
    hasData := false, data := [] }

/-- Archive record for the north component. -/
def wrecN : Record := { recArc with comp := 'N' }

theorem C6_archive_completion_witness :
    ∃ out, PickWaveformDumperApp.fetchArchiveData [itemW] [recArc, wrecN] = Except.ok out ∧
      out.length = [itemW].length ∧
      ∀ j (h1 : j < out.length) (h2 : j < [itemW].length),
        ∃ d, out[j] = { [itemW][j] with finished := true, hasData := true, data := d } ∧
          (∀ c ∈ ([itemW][j]).components,
            dlookup d c = some ([recArc, wrecN].filter (matchRecB ([itemW][j]).nslc c))) ∧
          (∀ c ∈ ([itemW][j]).components,
            (∀ rec ∈ [recArc, wrecN], matchRecB ([itemW][j]).nslc c rec = false) →
            dlookup d c = some []) :=
  C6_archive_completion_unconditional [itemW] [recArc, wrecN]
    (by decide) (by decide) (by decide) (by decide)

/-- C4, amended: for a pick whose stream key has never been observed
live (no high-water marks at all), the messaging client's `processPick`
dispatches the request to the archive fallback immediately at creation
time — the request comes back marked completed with the archive's
records attached per component — but the request IS registered in the
live-matching index: it is inserted into both the by-pick mapping and
the by-key list, and remains there after the archive dispatch. -/
theorem C4_archive_route_registers (st : AppState)
    (components : List (StreamKey × List Char))
    (now before_p after_p expire_after buffer_length : Int) (archive : List Record)
    (pick : Pick) (comps : List Char)
    (hinv : dlookup components pick.key = some comps)
    (hnoet : dlookup st.end_time pick.key = none)
    (ha : ∀ rec ∈ archive, rec.key = pick.key ∧ rec.comp ∈ comps) :
    ∃ item2 : RequestItem,
      PickWaveformDumperApp.processPick st components now before_p after_p expire_after
        buffer_length archive pick =
      Except.ok { st with
        request := dset st.request pick.publicID item2
        request_by_nslc := dset st.request_by_nslc pick.key
          ((dlookup st.request_by_nslc pick.key).getD [] ++ [item2])
        nextOid := st.nextOid + 1 } ∧
      item2.finished = true ∧
      item2.pickID = pick.publicID ∧
      item2.nslc = pick.key ∧
      item2.components = comps ∧
      (∀ c ∈ comps, dlookup item2.data c = some (archive.filter (matchRecB pick.key c))) := by
  obtain ⟨out, hfetch, hlen, hj⟩ := fetchArchiveData_spec
    [{ oid := st.nextOid, pickID := pick.publicID, nslc := pick.key, components := comps,
       start_time := pick.time - before_p, end_time := pick.time + after_p,
       expires := now + expire_after, finished := false, hasData := false, data := [] }]
    archive (by simp) (by simp)
    (by
      intro it hm
      rw [List.mem_singleton] at hm
      subst hm
      rfl)
    (by
      intro rec hr
      refine ⟨_, List.mem_singleton.mpr rfl, ?_, ?_⟩
      · exact (ha rec hr).1
      · exact (ha rec hr).2)
  cases out with
  | nil => simp at hlen
  | cons o tail =>
      have htail : tail = [] := by
        have := hlen
        simp at this
        exact this
      subst htail
      obtain ⟨d, hshape, hdata, _⟩ := hj 0 (by simp) (by simp)
      simp only [List.getElem_cons_zero] at hshape hdata
      refine ⟨o, ?_, ?_, ?_, ?_, ?_, ?_⟩
      · simp only [PickWaveformDumperApp.processPick, hinv, hnoet, hfetch]
        rfl
      · rw [hshape]
      · rw [hshape]
      · rw [hshape]
      · rw [hshape]
      · intro c hc
        have := hdata c (by simpa using hc)
        rw [hshape]
        simpa using this

theorem C4_archive_route_registers_witness :
    ∃ item2 : RequestItem,
      PickWaveformDumperApp.processPick st0 invA 0 120 240 1800 3600 [recArc] pickA =
      Except.ok { st0 with
        request := dset st0.request pickA.publicID item2
        request_by_nslc := dset st0.request_by_nslc pickA.key
          ((dlookup st0.request_by_nslc pickA.key).getD [] ++ [item2])
        nextOid := st0.nextOid + 1 } ∧
      item2.finished = true ∧
      item2.pickID = pickA.publicID ∧
      item2.nslc = pickA.key ∧
      item2.components = ['Z', 'N', 'E'] ∧
      (∀ c ∈ ['Z', 'N', 'E'],
        dlookup item2.data c = some ([recArc].filter (matchRecB pickA.key c))) :=
  C4_archive_route_registers st0 invA 0 120 240 1800 3600 [recArc] pickA ['Z', 'N', 'E']
    (by decide) (by decide) (by decide)

theorem countByNslc_eq_itemsOf (st : AppState) :
    countByNslc st = (itemsOf st.request_by_nslc).length := by
  unfold countByNslc itemsOf
  rw [List.length_flatten, List.map_map]
  rfl

theorem dlookup_some_key_mem {K V : Type} [DecidableEq K] {d : List (K × V)} {k : K} {v : V}
    (h : dlookup d k = some v) : k ∈ d.map Prod.fst :=
  List.mem_map.mpr ⟨(k, v), dlookup_some_mem h, rfl⟩

theorem mem_dset_nodup {K V : Type} [DecidableEq K] {d : List (K × V)} {k : K} {v : V}
    {p : K × V} (hn : (d.map Prod.fst).Nodup) (h : p ∈ dset d k v) :
    p = (k, v) ∨ (p ∈ d ∧ p.1 ≠ k) := by
  induction d with
  | nil =>
      simp [dset] at h
      left
      exact h
  | cons q rest ih =>
      obtain ⟨a, w⟩ := q
      simp only [List.map_cons, List.nodup_cons] at hn
      by_cases h2 : a = k
      · subst h2
        simp only [dset, if_pos rfl] at h
        rcases List.mem_cons.mp h with h3 | h3
        · left
          exact h3
        · right
          refine ⟨List.mem_cons_of_mem _ h3, ?_⟩
          intro he
          exact hn.1 (he ▸ List.mem_map.mpr ⟨p, h3, rfl⟩)
      · simp only [dset, if_neg h2] at h
        rcases List.mem_cons.mp h with h3 | h3
        · right
          subst h3
          exact ⟨List.mem_cons_self _ _, h2⟩
        · rcases ih hn.2 h3 with h4 | h4
          · left
            exact h4
          · right
            exact ⟨List.mem_cons_of_mem _ h4.1, h4.2⟩

theorem map_fst_filter_ne {K V : Type} [DecidableEq K] (d : List (K × V)) (k : K) :
    (derase d k).map Prod.fst = (d.map Prod.fst).filter (fun a => decide (a ≠ k)) := by
  induction d with
  | nil => rfl
  | cons p rest ih =>
      unfold derase at ih ⊢
      rw [List.filter_cons, List.map_cons, List.filter_cons]
      by_cases h : p.1 = k
      · have hc : (decide (p.1 ≠ k)) = false := by simp [h]
        simp only [hc, Bool.false_eq_true, if_false]
        exact ih
      · have hc : (decide (p.1 ≠ k)) = true := by simp [h]
        simp only [hc, if_true]
        rw [List.map_cons, ih]

theorem mem_derase_of_mem {K V : Type} [DecidableEq K] {d : List (K × V)} {k : K}
    {p : K × V} (h : p ∈ d) (hne : p.1 ≠ k) : p ∈ derase d k :=
  List.mem_filter.mpr ⟨h, by simpa using hne⟩

theorem itemsOf_register_perm (rbn : List (StreamKey × List RequestItem)) (nk : StreamKey)
    (hn : (rbn.map Prod.fst).Nodup) (item : RequestItem) :
    List.Perm (itemsOf (dset rbn nk ((dlookup rbn nk).getD [] ++ [item])))
      (itemsOf rbn ++ [item]) := by
  cases hrb : dlookup rbn nk with
  | none =>
      rw [dset_of_lookup_none hrb, itemsOf_append]
      simp [itemsOf]
  | some old =>
      have p1 := @itemsOf_dset_perm rbn nk hn (old ++ [item])
      have p2 := itemsOf_lookup_perm hn hrb
      simp only [Option.getD_some]
      refine p1.trans ?_
      have p3 : List.Perm ((old ++ [item]) ++ itemsOf (derase rbn nk))
          ((old ++ itemsOf (derase rbn nk)) ++ [item]) := by
        rw [List.append_assoc, List.append_assoc]
        exact List.Perm.append_left old (List.perm_append_comm)
      exact p3.trans (p2.symm.append_right [item])

/-- Well-formedness of the two request indices: unique pick ids in the
by-pick mapping, unique stream keys in the by-key mapping, globally
unique object identities, the multiset of pick ids across the by-key
lists matching the by-pick keys exactly, every listed request filed
under its own stream key, and all object identities below the fresh-id
counter. -/
abbrev IndexWf (st : AppState) : Prop :=
  (st.request.map Prod.fst).Nodup ∧
  (st.request_by_nslc.map Prod.fst).Nodup ∧
  ((itemsOf st.request_by_nslc).map RequestItem.oid).Nodup ∧
  List.Perm ((itemsOf st.request_by_nslc).map RequestItem.pickID) (st.request.map Prod.fst) ∧
  (∀ p ∈ st.request_by_nslc, ∀ it ∈ p.2, it.nslc = p.1) ∧
  (∀ it ∈ itemsOf st.request_by_nslc, it.oid < st.nextOid)

/-- Loop invariant of the matching pass, phrased over the live list
`lst` for the triggering key (whose entry in `rbn` is stale) together
with the other keys' lists. -/
structure LoopInv (bound : Nat) (k : StreamKey) (lst : List RequestItem)
    (rbn : List (StreamKey × List RequestItem))
    (request : List (String × RequestItem)) : Prop where
  reqN : (request.map Prod.fst).Nodup
  rbnN : (rbn.map Prod.fst).Nodup
  oidN : ((lst ++ itemsOf (derase rbn k)).map RequestItem.oid).Nodup
  perm : List.Perm ((lst ++ itemsOf (derase rbn k)).map RequestItem.pickID)
    (request.map Prod.fst)
  consL : ∀ it ∈ lst, it.nslc = k
  consR : ∀ p ∈ derase rbn k, ∀ it ∈ p.2, it.nslc = p.1
  oidB : ∀ it ∈ lst ++ itemsOf (derase rbn k), it.oid < bound

theorem loopInv_remove (bound : Nat) (k : StreamKey) (lst : List RequestItem)
    (rbn : List (StreamKey × List RequestItem)) (request : List (String × RequestItem))
    (inv : LoopInv bound k lst rbn request) (i : Nat) (hi : i < lst.length) :
    LoopInv bound k (eraseFirstOid lst (lst[i]).oid) rbn
      (derase request (lst[i]).pickID) := by
  have hmem : lst[i] ∈ lst := List.getElem_mem hi
  have hoidlst : (lst.map RequestItem.oid).Nodup := by
    have h := inv.oidN
    rw [List.map_append] at h
    exact h.of_append_left
  have hperm1 : List.Perm lst (lst[i] :: eraseFirstOid lst (lst[i]).oid) :=
    perm_eraseFirstOid hoidlst hmem
  have hsub : List.Sublist (eraseFirstOid lst (lst[i]).oid) lst :=
    eraseFirstOid_sublist lst (lst[i]).oid
  have hperm2 : List.Perm (lst ++ itemsOf (derase rbn k))
      ((lst[i]) :: (eraseFirstOid lst (lst[i]).oid ++ itemsOf (derase rbn k))) := by
    have := hperm1.append_right (itemsOf (derase rbn k))
    rw [List.cons_append] at this
    exact this
  have hpid : (lst[i]).pickID ∈ request.map Prod.fst := by
    apply inv.perm.mem_iff.mp
    exact List.mem_map.mpr ⟨lst[i], List.mem_append_left _ hmem, rfl⟩
  refine ⟨?_, inv.rbnN, ?_, ?_, ?_, inv.consR, ?_⟩
  · exact List.Nodup.sublist ((List.filter_sublist request).map Prod.fst) inv.reqN
  · have h := (hperm2.map RequestItem.oid).nodup_iff.mp inv.oidN
    rw [List.map_cons] at h
    exact (List.nodup_cons.mp h).2
  · have h3 : List.Perm (request.map Prod.fst)
        ((lst[i]).pickID :: (eraseFirstOid lst (lst[i]).oid ++
          itemsOf (derase rbn k)).map RequestItem.pickID) := by
      refine inv.perm.symm.trans ?_
      have := hperm2.map RequestItem.pickID
      rw [List.map_cons] at this
      exact this
    have h4 : (derase request (lst[i]).pickID).map Prod.fst =
        (request.map Prod.fst).filter (fun a => decide (a ≠ (lst[i]).pickID)) :=
      map_fst_filter_ne request (lst[i]).pickID
    rw [h4]
    have h5 : (request.map Prod.fst).filter (fun a => decide (a ≠ (lst[i]).pickID)) =
        (request.map Prod.fst).erase (lst[i]).pickID := by
      rw [List.Nodup.erase_eq_filter inv.reqN]
      apply List.filter_congr
      intro a _
      by_cases he : a = (lst[i]).pickID
      · simp [he]
      · simp [he]
    rw [h5]
    have h6 := h3.erase (lst[i]).pickID
    rw [List.erase_cons_head] at h6
    exact h6.symm
  · intro it hm
    exact inv.consL it (hsub.mem hm)
  · intro it hm
    rcases List.mem_append.mp hm with h7 | h7
    · exact inv.oidB it (List.mem_append_left _ (hsub.mem h7))
    · exact inv.oidB it (List.mem_append_right _ h7)

theorem matchLoop_inv (bound : Nat) (k : StreamKey) (et : List (Char × Int))
    (compBuf : List (Char × List Record)) :
    ∀ (gas i : Nat) (lst : List RequestItem) (rbn : List (StreamKey × List RequestItem))
      (request : List (String × RequestItem)) (exported : List RequestItem),
    LoopInv bound k lst rbn request →
    LoopInv bound k
      (StreamBufferApp.matchLoop k et compBuf gas i lst rbn request exported).lst
      (StreamBufferApp.matchLoop k et compBuf gas i lst rbn request exported).request_by_nslc
      (StreamBufferApp.matchLoop k et compBuf gas i lst rbn request exported).request := by
  intro gas
  induction gas with
  | zero =>
      intro i lst rbn request exported inv
      exact inv
  | succ g ih =>
      intro i lst rbn request exported inv
      rw [StreamBufferApp.matchLoop]
      by_cases hi : i < lst.length
      · rw [dif_pos hi]
        have hnslc : (lst[i]).nslc = k := inv.consL _ (List.getElem_mem hi)
        by_cases hf : StreamBufferApp.finishedTest et (lst[i]).end_time = true
        · rw [if_pos hf, if_pos hnslc]
          exact ih (i + 1) _ rbn _ _ (loopInv_remove bound k lst rbn request inv i hi)
        · rw [Bool.not_eq_true] at hf
          rw [hf]
          exact ih (i + 1) lst rbn request exported inv
      · rw [dif_neg hi]
        exact inv

theorem processPick_IndexWf (st : AppState) (components : List (StreamKey × List Char))
    (now before_p after_p expire_after : Int) (pick : Pick)
    (h : IndexWf st) (hfresh : dlookup st.request pick.publicID = none) :
    IndexWf (StreamBufferApp.processPick st components now before_p after_p
      expire_after pick) := by
  obtain ⟨h1, h2, h3, h4, h5, h6⟩ := h
  unfold StreamBufferApp.processPick
  cases hc : dlookup components pick.key with
  | none =>
      simp only [hc]
      exact ⟨h1, h2, h3, h4, h5, h6⟩
  | some comps =>
      simp only [hc]
      have hpid : pick.publicID ∉ st.request.map Prod.fst :=
        (dlookup_none_iff _ _).mp hfresh
      have hreg := itemsOf_register_perm st.request_by_nslc pick.key h2
        { oid := st.nextOid, pickID := pick.publicID, nslc := pick.key, components := comps,
          start_time := pick.time - before_p, end_time := pick.time + after_p,
          expires := now + expire_after, finished := false, hasData := false, data := [] }
      refine ⟨?_, keys_dset_nodup h2 _, ?_, ?_, ?_, ?_⟩
      · rw [dset_of_lookup_none hfresh, List.map_append]
        rw [List.nodup_append]
        refine ⟨h1, ?_, ?_⟩
        · simp
        · intro a ha hb
          simp only [List.map_cons, List.map_nil, List.mem_singleton] at hb
          subst hb
          exact hpid ha
      · have hp := hreg.map RequestItem.oid
        rw [List.map_append] at hp
        rw [hp.nodup_iff]
        rw [List.nodup_append]
        refine ⟨h3, ?_, ?_⟩
        · simp
        · intro a ha hb
          simp only [List.map_cons, List.map_nil, List.mem_singleton] at hb
          subst hb
          rcases List.mem_map.mp ha with ⟨it, hit, hoe⟩
          have h8 := h6 it hit
          simp only [hoe] at h8
          exact absurd h8 (lt_irrefl _)
      · have hp := hreg.map RequestItem.pickID
        rw [List.map_append] at hp
        rw [dset_of_lookup_none hfresh, List.map_append]
        refine hp.trans ?_
        exact h4.append_right _
      · intro p hp it hit
        rcases mem_dset_nodup h2 hp with he | ⟨hmem, _⟩
        · subst he
          rcases List.mem_append.mp hit with h7 | h7
          · cases hrb : dlookup st.request_by_nslc pick.key with
            | none =>
                rw [hrb] at h7
                simp at h7
            | some old =>
                rw [hrb] at h7
                simp only [Option.getD_some] at h7
                exact h5 _ (dlookup_some_mem hrb) it h7
          · rw [List.mem_singleton] at h7
            subst h7
            rfl
        · exact h5 _ hmem it hit
      · intro it hit
        show it.oid < st.nextOid + 1
        have hm := hreg.mem_iff.mp hit
        rcases List.mem_append.mp hm with h7 | h7
        · have h8 := h6 it h7
          omega
        · rw [List.mem_singleton] at h7
          subst h7
          show st.nextOid < st.nextOid + 1
          omega

theorem handleRecord_IndexWf (st : AppState) (r : Record) (h : IndexWf st) :
    IndexWf (StreamBufferApp.handleRecord st r).1 := by
  obtain ⟨h1, h2, h3, h4, h5, h6⟩ := h
  have hrbn : (StreamBufferApp.storeRecord st r).request_by_nslc = st.request_by_nslc := rfl
  have hreq : (StreamBufferApp.storeRecord st r).request = st.request := rfl
  unfold StreamBufferApp.handleRecord
  cases hl : dlookup st.request_by_nslc r.key with
  | none =>
      simp only [hrbn, hl]
      exact ⟨h1, h2, h3, h4, h5, h6⟩
  | some lst =>
      simp only [hrbn, hreq, hl]
      have hperm0 := itemsOf_lookup_perm h2 hl
      have inv0 : LoopInv st.nextOid r.key lst st.request_by_nslc st.request := by
        refine ⟨h1, h2, ?_, ?_, ?_, ?_, ?_⟩
        · exact ((hperm0.map RequestItem.oid).nodup_iff).mp h3
        · exact ((hperm0.map RequestItem.pickID).symm).trans h4
        · intro it hit
          exact h5 _ (dlookup_some_mem hl) it hit
        · intro p hp it hit
          exact h5 _ (mem_derase hp).1 it hit
        · intro it hit
          exact h6 it (hperm0.mem_iff.mpr hit)
      have invE := matchLoop_inv st.nextOid r.key
        ((dlookup (StreamBufferApp.storeRecord st r).end_time r.key).getD [])
        ((dlookup (StreamBufferApp.storeRecord st r).buffer r.key).getD [])
        lst.length 0 lst st.request_by_nslc st.request [] inv0
      have hdp := @itemsOf_dset_perm
        (StreamBufferApp.matchLoop r.key
          ((dlookup (StreamBufferApp.storeRecord st r).end_time r.key).getD [])
          ((dlookup (StreamBufferApp.storeRecord st r).buffer r.key).getD [])
          lst.length 0 lst st.request_by_nslc st.request []).request_by_nslc
        r.key invE.rbnN
        (StreamBufferApp.matchLoop r.key
          ((dlookup (StreamBufferApp.storeRecord st r).end_time r.key).getD [])
          ((dlookup (StreamBufferApp.storeRecord st r).buffer r.key).getD [])
          lst.length 0 lst st.request_by_nslc st.request []).lst
      refine ⟨invE.reqN, keys_dset_nodup invE.rbnN _, ?_, ?_, ?_, ?_⟩
      · exact ((hdp.map RequestItem.oid).nodup_iff).mpr invE.oidN
      · exact (hdp.map RequestItem.pickID).trans invE.perm
      · intro p hp it hit
        rcases mem_dset_nodup invE.rbnN hp with he | ⟨hmem, hne⟩
        · subst he
          exact invE.consL it hit
        · exact invE.consR _ (mem_derase_of_mem hmem hne) it hit
      · intro it hit
        show it.oid < st.nextOid
        exact invE.oidB it (hdp.mem_iff.mp hit)

/-- C3, amended: for a well-formed index state (as produced by fresh
registrations and retirements), the by-pick count equals the by-key
count and every pending request appears exactly once in each index; the
well-formedness is preserved by every registration of a pick identity
not already present in the by-pick mapping and by every record arrival
(whose matching pass performs the retirements).  A duplicate
registration breaks the invariant, as the counterexample shows, so the
fresh-identity hypothesis is exactly what the original claim lacks. -/
theorem C3_index_invariant (st : AppState) (h : IndexWf st) :
    (countByPick st = countByNslc st ∧
      ((itemsOf st.request_by_nslc).map RequestItem.pickID).Nodup ∧
      (st.request.map Prod.fst).Nodup) ∧
    (∀ (components : List (StreamKey × List Char)) (now before_p after_p expire_after : Int)
      (pick : Pick),
      dlookup st.request pick.publicID = none →
      IndexWf (StreamBufferApp.processPick st components now before_p after_p
        expire_after pick)) ∧
    (∀ r : Record, IndexWf (StreamBufferApp.handleRecord st r).1) := by
  refine ⟨⟨?_, ?_, h.1⟩, ?_, ?_⟩
  · rw [countByNslc_eq_itemsOf]
    unfold countByPick
    have hlen := h.2.2.2.1.length_eq
    simpa using hlen.symm
  · exact (h.2.2.2.1.nodup_iff).mpr h.1
  · intro components now bp ap ea pick hfresh
    exact processPick_IndexWf st components now bp ap ea pick h hfresh
  · intro r
    exact handleRecord_IndexWf st r h

theorem C3_index_invariant_witness :
    countByPick st1c = countByNslc st1c ∧
    ((itemsOf st1c.request_by_nslc).map RequestItem.pickID).Nodup ∧
    (st1c.request.map Prod.fst).Nodup :=
  (C3_index_invariant st1c (by decide)).1
